import Mathlib

/-!
Verification development for the single-file modularity analyzer
(`back/test_backend.py`, class `SingleFileModularityAnalyzer`, together with
the request-handling glue in `back/main.py`).

The analyzer's pipeline is embedded shallowly:

* the structural-extractor output (`_extract_ast_info`) is taken as input data
  (a `ModuleInput`), since parsing Python text is done by the external `ast`
  library; syntax-tree fragments needed for `_has_return` are modelled by the
  inductive `PyNode`;
* the external `radon` measurement call is an input (`Except String RadonData`):
  the try/except in `_radon_analyze` treats it as an all-or-nothing,
  possibly-raising call — all three radon invocations happen before any state
  is mutated, so a failure leaves the analyzer state untouched;
* `difflib.SequenceMatcher(None, a, b).ratio()` is implemented faithfully below
  (`sm_ratio`), including the `autojunk` purge of popular elements and the
  junk/non-junk extension loops of `find_longest_match` (with `isjunk = None`
  the junk set is empty);
* Python `float` arithmetic is modelled by exact rationals (`ℚ`).  Every
  numeric comparison made by the code (`> 0.7`, `> 0.85`, `< 65`, `< 0.3`, …)
  compares small-denominator rationals far from the representation error of
  IEEE doubles, so the modelling is faithful on all inputs considered here;
* Python dicts are association lists with Python's update semantics
  (assignment to an existing key keeps its position, a new key is appended);
* exceptions are `Except`: `ast.parse` failure is `PyError.parseError`, the
  `KeyError` raised by a lookup on a missing dict key is `PyError.keyError`.
-/

deriving instance DecidableEq for Except

namespace Analyzer

/-! ### Python dict primitives (association lists, insertion ordered) -/

/-- Dict lookup: the value at the first (in a well-formed dict, only) matching
key. -/
def dictGet {K V : Type} [DecidableEq K] : List (K × V) → K → Option V
  | [], _ => none
  | p :: ps, k => if p.1 = k then some p.2 else dictGet ps k

/-- Python `d[k] = v`: overwrite in place when the key exists, append
otherwise. -/
def dictSet {K V : Type} [DecidableEq K] (d : List (K × V)) (k : K) (v : V) :
    List (K × V) :=
  if (dictGet d k).isSome then d.map (fun p => if p.1 = k then (k, v) else p)
  else d ++ [(k, v)]

/-- In-place update of the value stored at key `k` (used for the mutating
`.append(...)` calls on dict-stored lists). -/
def dictModify {K V : Type} [DecidableEq K] (d : List (K × V)) (k : K)
    (f : V → V) : List (K × V) :=
  d.map (fun p => if p.1 = k then (p.1, f p.2) else p)

/-! ### Python string helpers used by `_normalize_code` and the rules -/

/-- The ASCII whitespace characters `str.strip()` removes (all sources in
scope are ASCII). -/
def pyIsSpace (c : Char) : Bool :=
  c == ' ' || c == '\t' || c == '\n' || c == '\r' ||
    c == Char.ofNat 11 || c == Char.ofNat 12

/-- Python `line.strip()`. -/
def pyStrip (l : List Char) : List Char :=
  ((l.dropWhile pyIsSpace).reverse.dropWhile pyIsSpace).reverse

/-- Python `s.split('\n')` (on a non-empty string it never yields an empty
list; a trailing newline yields a trailing empty piece). -/
def splitNl : List Char → List (List Char)
  | [] => [[]]
  | c :: cs =>
    if c = '\n' then [] :: splitNl cs
    else
      match splitNl cs with
      | [] => [[c]]
      | l :: ls => (c :: l) :: ls

/-- Python `len(source.split('\n'))`, the line count used by the
`god_functions` rule. -/
def sourceLineCount (s : String) : Nat := (splitNl s.toList).length

/-- Python `needle in hay` on strings (substring test), used by the
`orphan_functions` rule for `'test_' in name`. -/
def containsSubstr (needle hay : String) : Bool :=
  hay.toList.tails.any (fun t => needle.toList.isPrefixOf t)

/-- `_normalize_code`: strip each line, drop blank lines and whole-line
comments, rejoin with newlines.  (`if not source: return ''` is the first
branch.) -/
def normalize_code (source : String) : String :=
  if source = "" then ""
  else
    let lines := splitNl source.toList
    let normalized := (lines.map pyStrip).filter fun s =>
      match s with
      | [] => false
      | c :: _ => decide (c ≠ '#')
    ⟨List.intercalate ['\n'] normalized⟩

/-! ### `difflib.SequenceMatcher(None, a, b).ratio()`

A faithful implementation of CPython's `difflib` for the call the analyzer
makes: `isjunk = None` (so the b-junk set is empty) and `autojunk = True`
(elements occurring in more than 1% of a `b` of length ≥ 200 are dropped from
the index).  Sequences are lists of characters. -/

/-- One step of `__chain_b`'s `b2j.setdefault(elt, []).append(i)`. -/
def b2jStep (d : List (Char × List Nat)) (c : Char) (i : Nat) :
    List (Char × List Nat) :=
  if (dictGet d c).isSome then dictModify d c (fun js => js ++ [i])
  else d ++ [(c, [i])]

/-- The full `b2j` index of `b` before the autojunk purge: each character maps
to its (increasing) list of positions in `b`. -/
def b2jOf (b : List Char) : List (Char × List Nat) :=
  b.enum.foldl (fun d ci => b2jStep d ci.2 ci.1) []

/-- `__chain_b`: build `b2j`, then (autojunk) delete the popular entries when
`len(b) >= 200`.  With `isjunk = None` the junk purge is a no-op. -/
def chainB (b : List Char) : List (Char × List Nat) :=
  let b2j := b2jOf b
  let n := b.length
  if 200 ≤ n then
    let ntest := n / 100 + 1
    b2j.filter (fun p => decide (p.2.length ≤ ntest))
  else b2j

/-- The `bjunk` set of `SequenceMatcher(None, _, _)`: `isjunk` is `None`, so no
element is junk. -/
def bjunk : List Char := []

structure Match3 where
  i : Nat
  j : Nat
  size : Nat
deriving DecidableEq, Repr

/-- The inner `for j in b2j.get(a[i], nothing)` loop of `find_longest_match`:
`continue` below `blo`, `break` at `bhi` (position lists are increasing),
otherwise extend the diagonal run ending at `(i-1, j-1)`.  `j2lenOld` is the
previous row; the new row is built fresh.  Python's `j2len.get(j-1, 0)` on
`j = 0` reads key `-1`, which is never present, hence the `j = 0` guard. -/
def flmScanJ (a : List Char) (j2lenOld : List (Nat × Nat)) (blo bhi i : Nat) :
    List Nat → List (Nat × Nat) → Match3 → (List (Nat × Nat) × Match3)
  | [], newj2len, best => (newj2len, best)
  | j :: js, newj2len, best =>
    if j < blo then flmScanJ a j2lenOld blo bhi i js newj2len best
    else if bhi ≤ j then (newj2len, best)
    else
      let k := (if j = 0 then 0 else (dictGet j2lenOld (j - 1)).getD 0) + 1
      let newj2len := (j, k) :: newj2len
      -- Python's `i-k+1` / `j-k+1`; the diagonal run has `k ≤ i+1` and
      -- `k ≤ j+1`, written `i+1-k` to stay within ℕ.
      let best := if best.size < k then ⟨i + 1 - k, j + 1 - k, k⟩ else best
      flmScanJ a j2lenOld blo bhi i js newj2len best

/-- The outer `for i in range(alo, ahi)` loop of `find_longest_match`. -/
def flmLoopI (a : List Char) (b2j : List (Char × List Nat)) (blo bhi : Nat) :
    List Nat → List (Nat × Nat) → Match3 → Match3
  | [], _, best => best
  | i :: is, j2len, best =>
    let indices := (dictGet b2j (a.getD i (Char.ofNat 0))).getD []
    let (newj2len, best) := flmScanJ a j2len blo bhi i indices [] best
    flmLoopI a b2j blo bhi is newj2len best

/-- `while besti > alo and bestj > blo and not isbjunk(b[bestj-1]) and
a[besti-1] == b[bestj-1]` extension.  The fuel strictly exceeds the possible
number of iterations (each step decreases `besti`). -/
def extLeft (a b : List Char) (alo blo : Nat) : Nat → Match3 → Match3
  | 0, m => m
  | fuel + 1, m =>
    if alo < m.i ∧ blo < m.j ∧ b.getD (m.j - 1) (Char.ofNat 0) ∉ bjunk ∧
        a.getD (m.i - 1) (Char.ofNat 0) = b.getD (m.j - 1) (Char.ofNat 0) then
      extLeft a b alo blo fuel ⟨m.i - 1, m.j - 1, m.size + 1⟩
    else m

/-- `while besti+bestsize < ahi and bestj+bestsize < bhi and not
isbjunk(b[bestj+bestsize]) and a[besti+bestsize] == b[bestj+bestsize]`. -/
def extRight (a b : List Char) (ahi bhi : Nat) : Nat → Match3 → Match3
  | 0, m => m
  | fuel + 1, m =>
    if m.i + m.size < ahi ∧ m.j + m.size < bhi ∧
        b.getD (m.j + m.size) (Char.ofNat 0) ∉ bjunk ∧
        a.getD (m.i + m.size) (Char.ofNat 0) =
          b.getD (m.j + m.size) (Char.ofNat 0) then
      extRight a b ahi bhi fuel ⟨m.i, m.j, m.size + 1⟩
    else m

/-- The junk counterpart of `extLeft` (`isbjunk(...)` required true); with
`bjunk = []` it never fires, kept for fidelity. -/
def extLeftJunk (a b : List Char) (alo blo : Nat) : Nat → Match3 → Match3
  | 0, m => m
  | fuel + 1, m =>
    if alo < m.i ∧ blo < m.j ∧ b.getD (m.j - 1) (Char.ofNat 0) ∈ bjunk ∧
        a.getD (m.i - 1) (Char.ofNat 0) = b.getD (m.j - 1) (Char.ofNat 0) then
      extLeftJunk a b alo blo fuel ⟨m.i - 1, m.j - 1, m.size + 1⟩
    else m

/-- The junk counterpart of `extRight`. -/
def extRightJunk (a b : List Char) (ahi bhi : Nat) : Nat → Match3 → Match3
  | 0, m => m
  | fuel + 1, m =>
    if m.i + m.size < ahi ∧ m.j + m.size < bhi ∧
        b.getD (m.j + m.size) (Char.ofNat 0) ∈ bjunk ∧
        a.getD (m.i + m.size) (Char.ofNat 0) =
          b.getD (m.j + m.size) (Char.ofNat 0) then
      extRightJunk a b ahi bhi fuel ⟨m.i, m.j, m.size + 1⟩
    else m

/-- `SequenceMatcher.find_longest_match(alo, ahi, blo, bhi)`. -/
def find_longest_match (a : List Char) (b2j : List (Char × List Nat))
    (b : List Char) (alo ahi blo bhi : Nat) : Match3 :=
  let best := flmLoopI a b2j blo bhi (List.range' alo (ahi - alo)) [] ⟨alo, blo, 0⟩
  let best := extLeft a b alo blo (best.i + 1) best
  let best := extRight a b ahi bhi (ahi + 1) best
  let best := extLeftJunk a b alo blo (best.i + 1) best
  let best := extRightJunk a b ahi bhi (ahi + 1) best
  best

/-- The LIFO queue loop of `get_matching_blocks` (`queue.pop()` takes the most
recently pushed range; the queue is kept head-as-top).  The fuel strictly
exceeds the possible number of iterations: at most `min(la, lb)` popped ranges
produce a (disjoint, non-empty) block and each such range pushes at most two
more. -/
def gmbLoop (a : List Char) (b2j : List (Char × List Nat)) (b : List Char) :
    Nat → List (Nat × Nat × Nat × Nat) → List Match3 → List Match3
  | 0, _, acc => acc
  | _ + 1, [], acc => acc
  | fuel + 1, (alo, ahi, blo, bhi) :: queue, acc =>
    let m := find_longest_match a b2j b alo ahi blo bhi
    if m.size ≠ 0 then
      let queue := if alo < m.i ∧ blo < m.j then (alo, m.i, blo, m.j) :: queue
        else queue
      let queue := if m.i + m.size < ahi ∧ m.j + m.size < bhi then
          (m.i + m.size, ahi, m.j + m.size, bhi) :: queue
        else queue
      gmbLoop a b2j b fuel queue (acc ++ [m])
    else gmbLoop a b2j b fuel queue acc

/-- Lexicographic order on `(i, j, size)` triples, as Python compares the
`Match` tuples in `matching_blocks.sort()`. -/
def lexLeM (x y : Match3) : Bool :=
  decide (x.i < y.i ∨ (x.i = y.i ∧ (x.j < y.j ∨ (x.j = y.j ∧ x.size ≤ y.size))))

def insertLex (x : Match3) : List Match3 → List Match3
  | [] => [x]
  | y :: ys => if lexLeM y x then y :: insertLex x ys else x :: y :: ys

/-- Stable sort of the collected blocks (Python's `list.sort()`). -/
def sortBlocks : List Match3 → List Match3
  | [] => []
  | x :: xs => insertLex x (sortBlocks xs)

/-- The adjacent-block merging pass at the end of `get_matching_blocks`
(`i1, j1, k1` start at `0, 0, 0`). -/
def mergeAdjacent : List Match3 → Match3 → List Match3
  | [], cur => if cur.size ≠ 0 then [cur] else []
  | m :: ms, cur =>
    if cur.i + cur.size = m.i ∧ cur.j + cur.size = m.j then
      mergeAdjacent ms ⟨cur.i, cur.j, cur.size + m.size⟩
    else (if cur.size ≠ 0 then [cur] else []) ++ mergeAdjacent ms m

/-- `SequenceMatcher.get_matching_blocks()`, terminated by the sentinel
`(la, lb, 0)`. -/
def get_matching_blocks (a b : List Char) : List Match3 :=
  let b2j := chainB b
  let blocks :=
    gmbLoop a b2j b (2 * (a.length + b.length) + 4) [(0, a.length, 0, b.length)] []
  mergeAdjacent (sortBlocks blocks) ⟨0, 0, 0⟩ ++ [⟨a.length, b.length, 0⟩]

/-- `SequenceMatcher(None, a, b).ratio()`: `2 * matches / (len(a) + len(b))`,
or `1.0` for two empty sequences (`_calculate_ratio`). -/
def sm_ratio (a b : String) : ℚ :=
  let al := a.toList
  let bl := b.toList
  let matchTotal := ((get_matching_blocks al bl).map (·.size)).sum
  if al.length + bl.length ≠ 0 then
    mkRat (2 * matchTotal) (al.length + bl.length)
  else 1

/-! ### Data model: the records `_extract_ast_info` produces

`complexity` is `none` until `_radon_analyze` assigns the key; reads go
through `.get('complexity', 0)`, i.e. `getD 0`. -/

structure FunctionInfo where
  name : String
  lineno : Nat
  end_lineno : Nat
  args : List String
  calls : List String
  returns : Bool
  is_private : Bool
  source : String
  decorators : List String
  complexity : Option Int := none
deriving DecidableEq, Repr

structure ClassInfo where
  name : String
  lineno : Nat
  end_lineno : Nat
  methods : List String
  bases : List String
  source : String
  is_private : Bool
deriving DecidableEq, Repr

/-- `_extract_import_info` output; `kind` is `"import"` or `"import_from"`. -/
structure ImportInfo where
  kind : String
  module_name : Option String
  names : List String
  lineno : Nat
deriving DecidableEq, Repr

/-- The value stored per function name in `self.function_relationships`. -/
structure RelEntry where
  calls : List String
  called_by : List String
  related_functions : List String
deriving DecidableEq, Repr

/-- A value of `self.duplication_map` (keyed by the `(func1, func2)` name
pair). -/
structure DupEntry where
  func1 : String
  func2 : String
  similarity : ℚ
  source1 : String
  source2 : String
  line1 : Nat
  line2 : Nat
  complexity1 : Int
  complexity2 : Int
deriving DecidableEq, Repr

/-- The dict assigned to `self.complexity_scores` by `_radon_analyze` (all six
keys are set together in one statement, so it is either this record or the
initial empty dict, modelled as `Option`). -/
structure ComplexityScores where
  average_complexity : ℚ
  max_complexity : Int
  maintainability : ℚ
  size : Nat
  function_count : Nat
  class_count : Nat
deriving DecidableEq, Repr

/-- `module_data['metrics']` as set by `_radon_analyze`. -/
structure FileMetricsRaw where
  complexity : List (String × Int)
  maintainability : ℚ
  loc : Nat
  sloc : Nat
  comments : Nat
  multi : Nat
  blank : Nat
deriving DecidableEq, Repr

/-- What the external radon calls return when none of them raises:
`cc_visit` blocks as (name, complexity) pairs, `mi_visit`, and
`raw_analyze` counters. -/
structure RadonData where
  cc : List (String × Int)
  mi : ℚ
  loc : Nat
  sloc : Nat
  comments : Nat
  multi : Nat
  blank : Nat
deriving DecidableEq, Repr

/-- The structural-extractor output for one successfully parsed file (the
`module_data` collections after `_extract_ast_info`). -/
structure ModuleInput where
  functions : List FunctionInfo
  classes : List ClassInfo
  imports : List ImportInfo
deriving DecidableEq, Repr

/-- The analyzer's mutable state after the construction plus the pipeline
stages that have run so far. -/
structure AnalyzerState where
  functions : List FunctionInfo
  classes : List ClassInfo
  imports : List ImportInfo
  function_relationships : List (String × RelEntry)
  duplication_map : List ((String × String) × DupEntry)
  metrics : Option FileMetricsRaw
  complexity_scores : Option ComplexityScores
deriving DecidableEq, Repr

inductive PyError where
  | parseError (msg : String)
  | keyError (key : String)
deriving DecidableEq, Repr

/-! ### `_build_function_relationships` -/

/-- First loop: seed one entry per function name (a duplicate name overwrites
its entry, keeping the original position — Python dict semantics). -/
def relInitPass (functions : List FunctionInfo) : List (String × RelEntry) :=
  functions.foldl (fun d f => dictSet d f.name ⟨f.calls, [], []⟩) []

/-- Second loop: for every call whose name is a key, append the caller to the
callee's `called_by`. -/
def calledByPass (functions : List FunctionInfo)
    (d0 : List (String × RelEntry)) : List (String × RelEntry) :=
  functions.foldl (fun d f =>
    f.calls.foldl (fun d call =>
      if (dictGet d call).isSome then
        dictModify d call (fun e => { e with called_by := e.called_by ++ [f.name] })
      else d) d) d0

/-- `len(set(func1['calls']) & set(func2['calls']))`: the number of distinct
call targets the two functions share. -/
def sharedCallCount (f1 f2 : FunctionInfo) : Nat :=
  ((f1.calls.filter (fun c => decide (c ∈ f2.calls))).dedup).length

/-- The body of the pair loop for one `func1` against the rest of the list. -/
def relatedInner (f1 : FunctionInfo) (rest : List FunctionInfo)
    (d : List (String × RelEntry)) : List (String × RelEntry) :=
  rest.foldl (fun d f2 =>
    if 2 ≤ sharedCallCount f1 f2 then
      dictModify
        (dictModify d f1.name
          (fun e => { e with related_functions := e.related_functions ++ [f2.name] }))
        f2.name
        (fun e => { e with related_functions := e.related_functions ++ [f1.name] })
    else d) d

/-- Third loop: all index pairs `i < j`, in Python's enumeration order. -/
def relatedPass : List FunctionInfo → List (String × RelEntry) →
    List (String × RelEntry)
  | [], d => d
  | f1 :: rest, d => relatedPass rest (relatedInner f1 rest d)

def build_function_relationships (functions : List FunctionInfo) :
    List (String × RelEntry) :=
  relatedPass functions (calledByPass functions (relInitPass functions))

/-- The ordered pairs `(functions[i], functions[j])` with `i < j`, in the
enumeration order of the nested pair loops (`for i, func1 in
enumerate(functions): for func2 in functions[i+1:]`). -/
def ltPairs {α : Type} : List α → List (α × α)
  | [] => []
  | x :: xs => xs.map (fun y => (x, y)) ++ ltPairs xs

/-! ### `_radon_analyze` helpers -/

/-- `_find_complexity_for_function`: first block with a matching name, else
0. -/
def find_complexity_for_function : List (String × Int) → String → Int
  | [], _ => 0
  | (n, c) :: rest, func_name =>
    if n = func_name then c else find_complexity_for_function rest func_name

/-- `_calculate_average_complexity`. -/
def calculate_average_complexity (cc : List (String × Int)) : ℚ :=
  if cc = [] then 0
  else (((cc.map (·.2)).sum : Int) : ℚ) / (cc.length : ℚ)

/-- `max([cc.complexity for cc in cc_results], default=0)`. -/
def maxComplexity (cc : List (String × Int)) : Int :=
  match cc.map (·.2) with
  | [] => 0
  | c :: cs => cs.foldl max c

/-! ### `_difflib_analyze` -/

def mkDupEntry (f1 f2 : FunctionInfo) (sim : ℚ) : DupEntry :=
  ⟨f1.name, f2.name, sim, f1.source, f2.source, f1.lineno, f2.lineno,
    f1.complexity.getD 0, f2.complexity.getD 0⟩

/-- The inner pair loop for one `func1` against the rest. -/
def dupInner (f1 : FunctionInfo) (rest : List FunctionInfo)
    (m : List ((String × String) × DupEntry)) :
    List ((String × String) × DupEntry) :=
  rest.foldl (fun m f2 =>
    let sim := sm_ratio (normalize_code f1.source) (normalize_code f2.source)
    if 7/10 < sim then dictSet m (f1.name, f2.name) (mkDupEntry f1 f2 sim)
    else m) m

def difflib_analyze : List FunctionInfo → List ((String × String) × DupEntry) →
    List ((String × String) × DupEntry)
  | [], m => m
  | f1 :: rest, m => difflib_analyze rest (dupInner f1 rest m)

/-! ### `_calculate_file_cohesion` -/

def calculate_file_cohesion (functions : List FunctionInfo)
    (rels : List (String × RelEntry)) : ℚ :=
  if functions.length < 2 then 1
  else
    let possible : ℚ := ((functions.length * (functions.length - 1) : ℕ) : ℚ) / 2
    let total : ℕ := rels.foldl
      (fun acc p => acc + p.2.called_by.length + p.2.related_functions.length) 0
    let total2 : ℚ := (total : ℚ) / 2
    if possible = 0 then 1 else min 1 (total2 / possible)

/-! ### `_identify_modularity_issues`

An issue dict is a type tag, a severity string and the type-specific payload
fields.  The human-readable `description` strings (f-strings over the same
data) are not modelled. -/

inductive IssuePayload where
  | largeFile (metrics : ComplexityScores)
  | tooManyFunctions (count : Nat)
  | complexFunctions (functions : List (String × Int × Nat))
  | internalDuplication (duplicates : List DupEntry) (count : Nat)
  | orphanFunctions (functions : List String) (count : Nat)
  | godFunctions (functions : List (String × Nat × Nat))
  | lowMaintainability (score : ℚ)
  | mixedResponsibilities (cohesion : ℚ)
  | proceduralStyle (function_count : Nat)
deriving DecidableEq, Repr

structure Issue where
  type : String
  severity : String
  payload : IssuePayload
deriving DecidableEq, Repr

/-- `severity_order = {'critical': 0, 'high': 1, 'medium': 2, 'low': 3}`, read
with `.get(severity, 4)`. -/
def severityOrder (s : String) : Nat :=
  if s = "critical" then 0
  else if s = "high" then 1
  else if s = "medium" then 2
  else if s = "low" then 3
  else 4

/-- Insert into an already-built suffix, keeping the incoming element before
every element of equal key: combined with `sortBySeverity`'s recursion this is
exactly a stable ascending sort by `severityOrder`, which is what Python's
stable `issues.sort(key=...)` performs. -/
def insertBySeverity (x : Issue) : List Issue → List Issue
  | [] => [x]
  | y :: ys =>
    if severityOrder y.severity < severityOrder x.severity then
      y :: insertBySeverity x ys
    else x :: y :: ys

def sortBySeverity : List Issue → List Issue
  | [] => []
  | x :: xs => insertBySeverity x (sortBySeverity xs)

/-- The orphan-function filter of issue 5. -/
def isOrphan (rels : List (String × RelEntry)) (f : FunctionInfo) : Bool :=
  !f.is_private &&
    (((dictGet rels f.name).map (·.called_by)).getD []).length == 0 &&
    !(f.name == "main" || f.name == "__init__") &&
    !containsSubstr "test_" f.name

/-- Issue 1: `large_file`. -/
def ruleLargeFile (cs : ComplexityScores) : List Issue :=
  if 500 < cs.size then [⟨"large_file", "high", .largeFile cs⟩] else []

/-- Issue 2: `too_many_functions`. -/
def ruleTooMany (cs : ComplexityScores) : List Issue :=
  if 20 < cs.function_count then
    [⟨"too_many_functions", "medium", .tooManyFunctions cs.function_count⟩]
  else []

/-- Issue 3: `complex_functions`. -/
def ruleComplex (st : AnalyzerState) : List Issue :=
  let complex_functions := st.functions.filter fun f =>
    decide (10 < f.complexity.getD 0)
  if complex_functions ≠ [] then
    [⟨"complex_functions", "high",
      .complexFunctions (complex_functions.map fun f =>
        (f.name, f.complexity.getD 0, f.lineno))⟩]
  else []

/-- The `> 0.85` escalation filter of issue 4. -/
def highSimilarity (st : AnalyzerState) : List DupEntry :=
  (st.duplication_map.map (·.2)).filter fun d => decide (17/20 < d.similarity)

/-- Issue 4: `internal_duplication`.  Note the nesting: the issue is appended
only when the map is non-empty AND some pair passes the 0.85 filter. -/
def ruleDuplication (st : AnalyzerState) : List Issue :=
  if st.duplication_map ≠ [] then
    if highSimilarity st ≠ [] then
      [⟨"internal_duplication",
        if 3 < (highSimilarity st).length then "high" else "medium",
        .internalDuplication (st.duplication_map.map (·.2))
          st.duplication_map.length⟩]
    else []
  else []

/-- Issue 5: `orphan_functions`. -/
def ruleOrphans (st : AnalyzerState) : List Issue :=
  let orphan_functions := st.functions.filter (isOrphan st.function_relationships)
  if 5 < orphan_functions.length then
    [⟨"orphan_functions", "low",
      .orphanFunctions (orphan_functions.map (·.name)) orphan_functions.length⟩]
  else []

/-- Issue 6: `god_functions`. -/
def ruleGod (st : AnalyzerState) : List Issue :=
  let god_functions := st.functions.filter fun f =>
    decide (50 < sourceLineCount f.source)
  if god_functions ≠ [] then
    [⟨"god_functions", "medium",
      .godFunctions (god_functions.map fun f =>
        (f.name, sourceLineCount f.source, f.lineno))⟩]
  else []

/-- Issue 7: `low_maintainability`. -/
def ruleLowMaint (cs : ComplexityScores) : List Issue :=
  if cs.maintainability < 65 then
    [⟨"low_maintainability", "high", .lowMaintainability cs.maintainability⟩]
  else []

/-- Issue 8: `mixed_responsibilities`. -/
def ruleMixed (st : AnalyzerState) (cs : ComplexityScores) : List Issue :=
  let cohesion := calculate_file_cohesion st.functions st.function_relationships
  if cohesion < 3/10 ∧ 10 < cs.function_count then
    [⟨"mixed_responsibilities", "medium", .mixedResponsibilities cohesion⟩]
  else []

/-- Issue 9: `procedural_style`. -/
def ruleProcedural (cs : ComplexityScores) : List Issue :=
  if cs.class_count = 0 ∧ 15 < cs.function_count then
    [⟨"procedural_style", "low", .proceduralStyle cs.function_count⟩]
  else []

/-- The nine rule evaluations of `_identify_modularity_issues`, in source
order (each `issues.append(...)` becomes one optional singleton). -/
def detectedIssues (st : AnalyzerState) (cs : ComplexityScores) : List Issue :=
  ruleLargeFile cs ++ ruleTooMany cs ++ ruleComplex st ++ ruleDuplication st
    ++ ruleOrphans st ++ ruleGod st ++ ruleLowMaint cs ++ ruleMixed st cs
    ++ ruleProcedural cs

/-- `_identify_modularity_issues`: its very first statement reads
`self.complexity_scores['size']`, which raises `KeyError` when
`_radon_analyze` failed and left `complexity_scores` as the empty dict from
`__init__`. -/
def identify_modularity_issues (st : AnalyzerState) : Except PyError (List Issue) :=
  match st.complexity_scores with
  | none => .error (.keyError "size")
  | some cs => .ok (sortBySeverity (detectedIssues st cs))

/-! ### `_cluster_functions` -/

/-- The inner `for related in relationships.get('related_functions', [])`
loop: extend the cluster and the assigned set with each not-yet-assigned
related name, in order. -/
def addRelated (assigned cluster : List String) :
    List String → (List String × List String)
  | [] => (cluster, assigned)
  | r :: rs =>
    if r ∈ assigned then addRelated assigned cluster rs
    else addRelated (assigned ++ [r]) (cluster ++ [r]) rs

/-- `relationships.get(name, {}).get('related_functions', [])`. -/
def relatedOfName (rels : List (String × RelEntry)) (name : String) :
    List String :=
  ((dictGet rels name).map (·.related_functions)).getD []

/-- One iteration of the main clustering loop: skip an assigned seed,
otherwise open a new cluster and absorb unassigned related names.  The
state is (clusters so far, assigned set — a list used only through
membership). -/
def clusterStep (rels : List (String × RelEntry))
    (st : List (List String) × List String) (f : FunctionInfo) :
    List (List String) × List String :=
  if f.name ∈ st.2 then st
  else
    let res := addRelated (st.2 ++ [f.name]) [f.name] (relatedOfName rels f.name)
    (st.1 ++ (if res.1 ≠ [] then [res.1] else []), res.2)

/-- The main pass of `_cluster_functions` (everything before the leftover
handling). -/
def clusterMainPass (functions : List FunctionInfo)
    (rels : List (String × RelEntry)) : List (List String) × List String :=
  functions.foldl (clusterStep rels) ([], [])

/-- `[f['name'] for f in functions if f['name'] not in assigned]`. -/
def clusterUnassigned (functions : List FunctionInfo) (assigned : List String) :
    List String :=
  (functions.map (·.name)).filter (fun n => decide (n ∉ assigned))

/-- `_cluster_functions`: main pass, then dump any unassigned names into the
first cluster (or let them form their own). -/
def cluster_functions (functions : List FunctionInfo)
    (rels : List (String × RelEntry)) : List (List String) :=
  let st := clusterMainPass functions rels
  let unassigned := clusterUnassigned functions st.2
  if unassigned ≠ [] then
    match st.1 with
    | [] => [unassigned]
    | c :: rest => (c ++ unassigned) :: rest
  else st.1

/-! ### `_generate_refactoring_plan` and the `_handle_*` builders

Each step dict is modelled by its type tag and data payload; the
`description` strings and the `estimated_impact` summaries (pure functions of
the same data, read by nothing verified here) are not modelled. -/

inductive Step where
  | identify_common_code (duplicate_pairs : List (String × String))
  | refactor_duplicates (count : Nat)
  | create_module (module_file : String) (functions : List String)
  | break_down_function (function : String) (line : Nat) (complexity : Int)
  | extract_methods (function : String) (line : Nat) (lines : Nat)
  | create_focused_module (clusters : Nat)
  | group_into_classes (function_count : Nat)
  | convert_to_oop (function_count : Nat)
  | reduce_complexity
  | add_documentation
  | improve_naming
  | verify_usage (functions : List String)
  | consider_removal
deriving DecidableEq, Repr

structure Suggestion where
  action : String
  issue : Issue
  steps : List Step
deriving DecidableEq, Repr

def handle_internal_duplication (issue : Issue) : Suggestion :=
  let duplicates := match issue.payload with
    | .internalDuplication ds _ => ds
    | _ => []     -- unreachable: only called on internal_duplication issues
  ⟨"extract_common_function", issue,
    [.identify_common_code (duplicates.map fun d => (d.func1, d.func2)),
     .refactor_duplicates duplicates.length]⟩

def handle_large_file (st : AnalyzerState) (issue : Issue) : Suggestion :=
  let clusters := cluster_functions st.functions st.function_relationships
  ⟨"split_file", issue,
    clusters.enum.map fun p =>
      .create_module ("module_" ++ toString (p.1 + 1) ++ ".py") p.2⟩

def handle_complex_functions (issue : Issue) : Suggestion :=
  let fns := match issue.payload with
    | .complexFunctions fs => fs
    | _ => []
  ⟨"simplify_functions", issue,
    fns.map fun f => .break_down_function f.1 f.2.2 f.2.1⟩

def handle_god_functions (issue : Issue) : Suggestion :=
  let fns := match issue.payload with
    | .godFunctions fs => fs
    | _ => []
  ⟨"split_long_functions", issue,
    fns.map fun f => .extract_methods f.1 f.2.2 f.2.1⟩

def handle_mixed_responsibilities (st : AnalyzerState) (issue : Issue) :
    Suggestion :=
  let clusters := cluster_functions st.functions st.function_relationships
  ⟨"separate_concerns", issue, [.create_focused_module clusters.length]⟩

def handle_too_many_functions (issue : Issue) : Suggestion :=
  let count := match issue.payload with
    | .tooManyFunctions c => c
    | _ => 0
  ⟨"organize_functions", issue, [.group_into_classes count]⟩

def handle_procedural_style (issue : Issue) : Suggestion :=
  let fc := match issue.payload with
    | .proceduralStyle c => c
    | _ => 0
  ⟨"introduce_classes", issue, [.convert_to_oop fc]⟩

def handle_low_maintainability (issue : Issue) : Suggestion :=
  ⟨"improve_maintainability", issue,
    [.reduce_complexity, .add_documentation, .improve_naming]⟩

def handle_orphan_functions (issue : Issue) : Suggestion :=
  let fns := match issue.payload with
    | .orphanFunctions fs _ => fs
    | _ => []
  ⟨"review_unused_code", issue, [.verify_usage (fns.take 5), .consider_removal]⟩

/-- The `if/elif` dispatch of `_generate_refactoring_plan` (an issue with an
unknown type — impossible for issues the detector builds — adds nothing). -/
def generate_refactoring_plan (st : AnalyzerState) (issues : List Issue) :
    List Suggestion :=
  issues.foldl (fun acc issue =>
    if issue.type = "internal_duplication" then
      acc ++ [handle_internal_duplication issue]
    else if issue.type = "large_file" then acc ++ [handle_large_file st issue]
    else if issue.type = "complex_functions" then
      acc ++ [handle_complex_functions issue]
    else if issue.type = "god_functions" then acc ++ [handle_god_functions issue]
    else if issue.type = "mixed_responsibilities" then
      acc ++ [handle_mixed_responsibilities st issue]
    else if issue.type = "too_many_functions" then
      acc ++ [handle_too_many_functions issue]
    else if issue.type = "procedural_style" then
      acc ++ [handle_procedural_style issue]
    else if issue.type = "low_maintainability" then
      acc ++ [handle_low_maintainability issue]
    else if issue.type = "orphan_functions" then
      acc ++ [handle_orphan_functions issue]
    else acc) []

/-! ### The pipeline `analyze_file` -/

/-- `_ast_analyze` after a successful parse: store the extracted collections
and build the relationship graph.  (A parse failure is handled in
`analyze_file`: the except-clause re-raises, so the exception propagates.) -/
def ast_analyze (m : ModuleInput) : AnalyzerState :=
  { functions := m.functions, classes := m.classes, imports := m.imports,
    function_relationships := build_function_relationships m.functions,
    duplication_map := [], metrics := none, complexity_scores := none }

/-- `_radon_analyze`: on success, store the metrics dict, assign each
function's `complexity` key and the `complexity_scores` dict; on failure, the
exception is caught and printed — all three radon calls precede the first
assignment, so the state is unchanged. -/
def radon_analyze (st : AnalyzerState) (r : Except String RadonData) :
    AnalyzerState :=
  match r with
  | .error _ => st
  | .ok rd =>
    { st with
      metrics := some ⟨rd.cc, rd.mi, rd.loc, rd.sloc, rd.comments, rd.multi, rd.blank⟩,
      functions := st.functions.map fun f =>
        { f with complexity := some (find_complexity_for_function rd.cc f.name) },
      complexity_scores := some
        { average_complexity := calculate_average_complexity rd.cc,
          max_complexity := maxComplexity rd.cc,
          maintainability := rd.mi,
          size := rd.sloc,
          function_count := st.functions.length,
          class_count := st.classes.length } }

/-- `_difflib_analyze` as a state transformer. -/
def difflib_step (st : AnalyzerState) : AnalyzerState :=
  { st with duplication_map := difflib_analyze st.functions [] }

/-- `analyze_file`, the main pipeline.  Its external inputs are the parse
outcome (the `ast.parse` call inside `_ast_analyze`; on failure the method
re-raises, and `analyze_file` has no handler) and the radon outcome.  A
`KeyError` escaping `_identify_modularity_issues` likewise propagates. -/
def analyze_file (parsed : Except String ModuleInput)
    (radon : Except String RadonData) : Except PyError (List Suggestion) :=
  match parsed with
  | .error msg => .error (.parseError msg)
  | .ok m =>
    let st := ast_analyze m
    let st := radon_analyze st radon
    let st := difflib_step st
    match identify_modularity_issues st with
    | .error e => .error e
    | .ok issues => .ok (generate_refactoring_plan st issues)

/-! ### `_has_return` and the syntax-tree fragment it walks -/

/-- A Python AST node as far as `_has_return` observes it: a `FunctionDef`
with a body, a `Return` that either carries a value or not, or any other
node with its children. -/
inductive PyNode where
  | functionDef (name : String) (body : List PyNode)
  | ret (hasValue : Bool)
  | other (children : List PyNode)

def PyNode.children : PyNode → List PyNode
  | .functionDef _ body => body
  | .ret _ => []
  | .other cs => cs

/-- `isinstance(child, ast.Return) and child.value is not None`. -/
def isValueReturn : PyNode → Bool
  | .ret true => true
  | _ => false

theorem sum_sizeOf_lt_sizeOf_list (l : List PyNode) :
    (l.map sizeOf).sum < sizeOf l := by
  induction l with
  | nil => simp
  | cons hd tl ih =>
    simp only [List.map_cons, List.sum_cons, List.cons.sizeOf_spec]
    omega

theorem sizeOf_children_lt (n : PyNode) :
    ((n.children.map sizeOf).sum) < sizeOf n := by
  match n with
  | .functionDef name body =>
    have := sum_sizeOf_lt_sizeOf_list body
    simp only [PyNode.children, PyNode.functionDef.sizeOf_spec]
    omega
  | .ret v =>
    simp [PyNode.children, PyNode.ret.sizeOf_spec]
  | .other cs =>
    have := sum_sizeOf_lt_sizeOf_list cs
    simp only [PyNode.children, PyNode.other.sizeOf_spec]
    omega

/-- `ast.walk`: breadth-first enumeration of a node and all its descendants
(a deque seeded with the node; each popped node is yielded and its children
are appended). -/
def walk (todo : List PyNode) : List PyNode :=
  match todo with
  | [] => []
  | n :: rest => n :: walk (rest ++ n.children)
termination_by (todo.map sizeOf).sum
decreasing_by
  simp only [List.map_append, List.sum_append, List.map_cons, List.sum_cons]
  have := sizeOf_children_lt n
  omega

/-- `_has_return(node)`: scan `ast.walk(node)` for a value-carrying
`Return`.  The walk crosses into nested `FunctionDef` bodies. -/
def has_return (node : PyNode) : Bool :=
  (walk [node]).any isValueReturn

/-- The subtree scan bounded to the function's own body, as §9 of the design
notes describes the (likely intended) alternative: nested `FunctionDef`
nodes are listed but not entered.  Used only to state that `_has_return`
does NOT behave this way on nested returns.  Modelled from the spec: "an
explicit recursive or worklist-based subtree scan bounded to the function's
own body, stopping at nested function boundaries". -/
def walkOwn (todo : List PyNode) : List PyNode :=
  match todo with
  | [] => []
  | n :: rest =>
    match n with
    | .functionDef name body => PyNode.functionDef name body :: walkOwn rest
    | m => m :: walkOwn (rest ++ m.children)
termination_by (todo.map sizeOf).sum
decreasing_by
  · simp only [List.map_append, List.sum_append, List.map_cons, List.sum_cons]
    have : 0 < sizeOf (PyNode.functionDef name body) := by
      simp [PyNode.functionDef.sizeOf_spec]
    omega
  · simp only [List.map_append, List.sum_append, List.map_cons, List.sum_cons]
    have := sizeOf_children_lt m
    omega

/-- Whether a value-carrying return occurs outside nested inner function
definitions, starting from the body of `node`. -/
def has_own_value_return (node : PyNode) : Bool :=
  (walkOwn node.children).any isValueReturn

/-! ### Concrete scenario inputs

These are extractor outputs for small concrete Python files, used to settle
the scenario claims and to witness the conditional theorems. -/

/-- C2's counterexample file: two functions whose normalized sources are
similar enough to be recorded as a duplicate pair (ratio 19/27 ≈ 0.704 >
0.70) but not similar enough for the 0.85 escalation filter. -/
def fAdd : FunctionInfo :=
  { name := "add", lineno := 1, end_lineno := 2, args := ["a", "b"], calls := [],
    returns := true, is_private := false,
    source := "def add(a, b):\n    return a + b", decorators := [] }

def fMul : FunctionInfo :=
  { name := "mul", lineno := 4, end_lineno := 5, args := ["x", "y"], calls := [],
    returns := true, is_private := false,
    source := "def mul(x, y):\n    return x * y", decorators := [] }

def radonAddMul : RadonData :=
  ⟨[("add", 1), ("mul", 1)], 100, 5, 4, 0, 0, 0⟩

/-- The analyzer state after AST, radon and difflib stages on the
`add`/`mul` file. -/
def stAddMul : AnalyzerState :=
  difflib_step (radon_analyze (ast_analyze ⟨[fAdd, fMul], [], []⟩) (.ok radonAddMul))

/-- C2's scenario file: two classes `A` and `B`, each declaring a method
`reset` with byte-identical source, so the normalized sources are
byte-identical too.  `ast.walk` lists methods as `FunctionDef`s, so both
appear as extracted functions named `reset`. -/
def fReset1 : FunctionInfo :=
  { name := "reset", lineno := 2, end_lineno := 3, args := ["self"], calls := [],
    returns := false, is_private := false,
    source := "def reset(self):\n        self.count = 0", decorators := [] }

def fReset2 : FunctionInfo :=
  { name := "reset", lineno := 6, end_lineno := 7, args := ["self"], calls := [],
    returns := false, is_private := false,
    source := "def reset(self):\n        self.count = 0", decorators := [] }

def classA : ClassInfo :=
  ⟨"A", 1, 3, ["reset"], [], "class A:\n    def reset(self):\n        self.count = 0", false⟩

def classB : ClassInfo :=
  ⟨"B", 5, 7, ["reset"], [], "class B:\n    def reset(self):\n        self.count = 0", false⟩

def radonReset : RadonData :=
  ⟨[("reset", 1), ("reset", 1), ("A", 1), ("B", 1)], 100, 7, 6, 0, 0, 1⟩

def stReset : AnalyzerState :=
  difflib_step (radon_analyze
    (ast_analyze ⟨[fReset1, fReset2], [classA, classB], []⟩) (.ok radonReset))

/-- C3's scenario file: 25 trivial one-line functions (each returning a
distinctive string constant, so no pair is similar enough for the duplicate
detector), no calls between them, 0 classes. -/
def chars25 : List Char :=
  ['a', 'b', 'c', 'd', 'e', 'f', 'g', 'h', 'i', 'j', 'k', 'l', 'm',
   'n', 'o', 'p', 'q', 'r', 's', 't', 'u', 'v', 'w', 'x', 'y']

def mkTrivialFun (p : Nat × Char) : FunctionInfo :=
  { name := String.mk [p.2], lineno := p.1 + 1, end_lineno := p.1 + 1,
    args := [], calls := [], returns := true, is_private := false,
    source := "def " ++ String.mk [p.2] ++ "(): return " ++
      String.mk ('"' :: List.replicate 10 p.2 ++ ['"']),
    decorators := [] }

def funcs25 : List FunctionInfo := chars25.enum.map mkTrivialFun

def radon25 : RadonData :=
  ⟨chars25.map (fun c => (String.mk [c], 1)), 100, 25, 25, 0, 0, 0⟩

def st25 : AnalyzerState :=
  difflib_step (radon_analyze (ast_analyze ⟨funcs25, [], []⟩) (.ok radon25))

/-- The `complexity_scores` dict `_radon_analyze` computes for the
25-function file. -/
def scores25 : ComplexityScores := ⟨1, 1, 100, 25, 25, 0⟩

/-- C7's counterexample file: two distinct top-level functions both named
`f` (Python allows redefinition; `ast.walk` reports both) plus a function
`g`.  The first `f` and `g` share two call targets. -/
def fDup1 : FunctionInfo :=
  { name := "f", lineno := 1, end_lineno := 3, args := [], calls := ["len", "print"],
    returns := false, is_private := false,
    source := "def f():\n    print(len([]))", decorators := [] }

def fG : FunctionInfo :=
  { name := "g", lineno := 5, end_lineno := 7, args := [], calls := ["len", "print"],
    returns := false, is_private := false,
    source := "def g():\n    print(len([1]))", decorators := [] }

def fDup2 : FunctionInfo :=
  { name := "f", lineno := 9, end_lineno := 10, args := [], calls := [],
    returns := false, is_private := false,
    source := "def f():\n    pass", decorators := [] }

def funcsDupName : List FunctionInfo := [fDup1, fG, fDup2]

/-- C7's witness file: two distinctly named functions sharing two call
targets. -/
def fP : FunctionInfo :=
  { name := "p", lineno := 1, end_lineno := 2, args := [], calls := ["len", "sum"],
    returns := true, is_private := false,
    source := "def p():\n    return sum(x) + len(x)", decorators := [] }

def fQ : FunctionInfo :=
  { name := "q", lineno := 4, end_lineno := 5, args := [], calls := ["len", "sum", "max"],
    returns := true, is_private := false,
    source := "def q():\n    return sum(y) * len(y) + max(y)", decorators := [] }

/-- C9's scenario: an outer function whose only value-carrying `return` sits
inside a nested inner function definition. -/
def nestedReturnFun : PyNode :=
  .functionDef "outer"
    [.other [],
     .functionDef "inner" [.ret true],
     .ret false]

/-! ## Lemmas about the dict primitives -/

theorem dictGet_append {K V : Type} [DecidableEq K] (d1 d2 : List (K × V)) (n : K) :
    dictGet (d1 ++ d2) n =
      if (dictGet d1 n).isSome then dictGet d1 n else dictGet d2 n := by
  induction d1 with
  | nil => simp [dictGet]
  | cons p ps ih =>
    by_cases hp : p.1 = n
    · simp [dictGet, hp]
    · simp [dictGet, hp, ih]

theorem dictGet_overwrite {K V : Type} [DecidableEq K] (d : List (K × V))
    (k : K) (v : V) (n : K) :
    dictGet (d.map fun p => if p.1 = k then (k, v) else p) n =
      if n = k then (if (dictGet d k).isSome then some v else none)
      else dictGet d n := by
  induction d with
  | nil => by_cases h : n = k <;> simp [dictGet, h]
  | cons p ps ih =>
    by_cases hp : p.1 = k
    · by_cases hn : n = k
      · simp [dictGet, hp, hn]
      · have : ¬ (k = n) := fun h => hn h.symm
        simp [dictGet, hp, hn, this, ih]
    · by_cases hn : p.1 = n
      · have hnk : ¬ (n = k) := fun h => hp (hn.trans h)
        simp [dictGet, hp, hn, hnk]
      · simp [dictGet, hp, hn, ih]

theorem dictGet_dictSet {K V : Type} [DecidableEq K] (d : List (K × V))
    (k : K) (v : V) (n : K) :
    dictGet (dictSet d k v) n = if n = k then some v else dictGet d n := by
  unfold dictSet
  by_cases h : (dictGet d k).isSome
  · rw [if_pos h, dictGet_overwrite]
    by_cases hn : n = k <;> simp [hn, h]
  · rw [if_neg h, dictGet_append]
    by_cases hn : n = k
    · subst hn
      simp only [Bool.not_eq_true] at h
      simp [h, dictGet]
    · by_cases hs : (dictGet d n).isSome
      · simp [hs, hn]
      · have hs2 : dictGet d n = none := Option.not_isSome_iff_eq_none.mp hs
        have hn2 : ¬ k = n := fun hk => hn hk.symm
        simp [hs2, hn, hn2, dictGet]

theorem dictGet_dictModify {K V : Type} [DecidableEq K] (d : List (K × V))
    (k : K) (f : V → V) (n : K) :
    dictGet (dictModify d k f) n =
      if n = k then (dictGet d k).map f else dictGet d n := by
  induction d with
  | nil => by_cases h : n = k <;> simp [dictGet, dictModify, h]
  | cons p ps ih =>
    by_cases hp : p.1 = k
    · by_cases hn : n = k
      · simp [dictGet, dictModify, hp, hn]
      · have : ¬ (k = n) := fun h => hn h.symm
        simp only [dictModify, List.map_cons] at *
        simp [dictGet, hp, this, hn, ih]
    · by_cases hn : p.1 = n
      · have hnk : ¬ (n = k) := fun h => hp (hn.trans h)
        simp [dictGet, dictModify, hp, hn, hnk]
      · simp only [dictModify, List.map_cons] at *
        simp [dictGet, hp, hn, ih]

theorem dictGet_mem {K V : Type} [DecidableEq K] {d : List (K × V)} {k : K}
    {v : V} (h : dictGet d k = some v) : (k, v) ∈ d := by
  induction d with
  | nil => simp [dictGet] at h
  | cons p ps ih =>
    by_cases hp : p.1 = k
    · simp only [dictGet, if_pos hp] at h
      cases h
      have hpk : p = (k, p.2) := by cases p; simp_all
      rw [← hpk]
      exact List.mem_cons_self _ _
    · simp only [dictGet, if_neg hp] at h
      exact .tail _ (ih h)

theorem mem_dictSet {K V : Type} [DecidableEq K] {d : List (K × V)}
    {k : K} {v : V} {x : K × V} (h : x ∈ dictSet d k v) :
    x ∈ d ∨ x = (k, v) := by
  unfold dictSet at h
  by_cases hs : (dictGet d k).isSome
  · rw [if_pos hs] at h
    obtain ⟨y, hy, hxy⟩ := List.mem_map.mp h
    by_cases hyk : y.1 = k
    · rw [if_pos hyk] at hxy
      exact .inr hxy.symm
    · rw [if_neg hyk] at hxy
      exact .inl (hxy ▸ hy)
  · rw [if_neg hs] at h
    rcases List.mem_append.mp h with h1 | h1
    · exact .inl h1
    · exact .inr (by simpa using h1)

theorem mem_dictModify {K V : Type} [DecidableEq K] {d : List (K × V)}
    {k : K} {f : V → V} {x : K × V} (h : x ∈ dictModify d k f) :
    ∃ y ∈ d, x = y ∨ x = (y.1, f y.2) := by
  obtain ⟨y, hy, hxy⟩ := List.mem_map.mp h
  refine ⟨y, hy, ?_⟩
  by_cases hyk : y.1 = k
  · right; rw [if_pos hyk] at hxy; exact hxy.symm
  · left; rw [if_neg hyk] at hxy; exact hxy.symm

/-! ## Lemmas about the stable severity sort -/

theorem mem_insertBySeverity {x y : Issue} {l : List Issue} :
    y ∈ insertBySeverity x l ↔ y = x ∨ y ∈ l := by
  induction l with
  | nil => simp [insertBySeverity]
  | cons z zs ih =>
    unfold insertBySeverity
    split <;> simp only [List.mem_cons, ih] <;> tauto

theorem mem_sortBySeverity {y : Issue} {l : List Issue} :
    y ∈ sortBySeverity l ↔ y ∈ l := by
  induction l with
  | nil => simp [sortBySeverity]
  | cons x xs ih =>
    simp only [sortBySeverity, mem_insertBySeverity, ih, List.mem_cons]

theorem sorted_insertBySeverity {x : Issue} {l : List Issue}
    (h : l.Pairwise (fun a b => severityOrder a.severity ≤ severityOrder b.severity)) :
    (insertBySeverity x l).Pairwise
      (fun a b => severityOrder a.severity ≤ severityOrder b.severity) := by
  induction l with
  | nil => simp [insertBySeverity]
  | cons z zs ih =>
    rw [List.pairwise_cons] at h
    unfold insertBySeverity
    split
    · rename_i hlt
      rw [List.pairwise_cons]
      constructor
      · intro b hb
        rcases mem_insertBySeverity.mp hb with hb | hb
        · subst hb; omega
        · exact h.1 b hb
      · exact ih h.2
    · rename_i hge
      rw [List.pairwise_cons]
      constructor
      · intro b hb
        rcases List.mem_cons.mp hb with hb | hb
        · subst hb; omega
        · have := h.1 b hb; omega
      · exact List.Pairwise.cons h.1 h.2

theorem sorted_sortBySeverity (l : List Issue) :
    (sortBySeverity l).Pairwise
      (fun a b => severityOrder a.severity ≤ severityOrder b.severity) := by
  induction l with
  | nil => simp [sortBySeverity]
  | cons x xs ih => exact sorted_insertBySeverity ih

theorem filter_insertBySeverity (x : Issue) (l : List Issue) (n : Nat) :
    (insertBySeverity x l).filter (fun i => decide (severityOrder i.severity = n)) =
      if severityOrder x.severity = n then
        x :: l.filter (fun i => decide (severityOrder i.severity = n))
      else l.filter (fun i => decide (severityOrder i.severity = n)) := by
  induction l with
  | nil =>
    by_cases h : severityOrder x.severity = n <;> simp [insertBySeverity, h]
  | cons y ys ih =>
    unfold insertBySeverity
    split
    · rename_i hlt
      by_cases hx : severityOrder x.severity = n
      · have hy : ¬ (severityOrder y.severity = n) := by omega
        simp only [List.filter_cons, ih, decide_eq_true_eq]
        simp [hy, hx]
      · simp only [List.filter_cons, ih, hx, decide_eq_true_eq]
        by_cases hy : severityOrder y.severity = n <;> simp [hy, hx]
    · by_cases hx : severityOrder x.severity = n <;>
        simp [List.filter_cons, hx]

theorem filter_sortBySeverity (l : List Issue) (n : Nat) :
    (sortBySeverity l).filter (fun i => decide (severityOrder i.severity = n)) =
      l.filter (fun i => decide (severityOrder i.severity = n)) := by
  induction l with
  | nil => simp [sortBySeverity]
  | cons x xs ih =>
    simp only [sortBySeverity, filter_insertBySeverity, ih, List.filter_cons]
    by_cases hx : severityOrder x.severity = n <;> simp [hx]

/-! ## Lemmas about the rule evaluations -/

theorem mem_ite_singleton {α : Type} {c : Prop} [Decidable c] {x i : α}
    (h : i ∈ if c then [x] else ([] : List α)) : i = x ∧ c := by
  by_cases hc : c
  · rw [if_pos hc] at h
    exact ⟨by simpa using h, hc⟩
  · rw [if_neg hc] at h
    simp at h

theorem mem_ruleDuplication {st : AnalyzerState} {i : Issue}
    (h : i ∈ ruleDuplication st) :
    i = ⟨"internal_duplication",
          if 3 < (highSimilarity st).length then "high" else "medium",
          .internalDuplication (st.duplication_map.map (·.2))
            st.duplication_map.length⟩ ∧
      st.duplication_map ≠ [] ∧ highSimilarity st ≠ [] := by
  unfold ruleDuplication at h
  by_cases h1 : st.duplication_map ≠ []
  · rw [if_pos h1] at h
    by_cases h2 : highSimilarity st ≠ []
    · rw [if_pos h2] at h
      exact ⟨by simpa using h, h1, h2⟩
    · rw [if_neg h2] at h
      simp at h
  · rw [if_neg h1] at h
    simp at h

theorem ruleDuplication_of_high {st : AnalyzerState}
    (h2 : highSimilarity st ≠ []) :
    ruleDuplication st =
      [⟨"internal_duplication",
        if 3 < (highSimilarity st).length then "high" else "medium",
        .internalDuplication (st.duplication_map.map (·.2))
          st.duplication_map.length⟩] := by
  have h1 : st.duplication_map ≠ [] := by
    intro hd
    apply h2
    unfold highSimilarity
    rw [hd]
    rfl
  unfold ruleDuplication
  rw [if_pos h1, if_pos h2]

theorem severity_mem_detected {st : AnalyzerState} {cs : ComplexityScores}
    {i : Issue} (h : i ∈ detectedIssues st cs) :
    i.severity = "high" ∨ i.severity = "medium" ∨ i.severity = "low" := by
  simp only [detectedIssues, List.mem_append] at h
  rcases h with ((((((((h | h) | h) | h) | h) | h) | h) | h) | h)
  · simp only [ruleLargeFile] at h
    rw [(mem_ite_singleton h).1]
    tauto
  · simp only [ruleTooMany] at h
    rw [(mem_ite_singleton h).1]
    tauto
  · simp only [ruleComplex] at h
    rw [(mem_ite_singleton h).1]
    tauto
  · rw [(mem_ruleDuplication h).1]
    by_cases hl : 3 < (highSimilarity st).length <;> simp [hl]
  · simp only [ruleOrphans] at h
    rw [(mem_ite_singleton h).1]
    tauto
  · simp only [ruleGod] at h
    rw [(mem_ite_singleton h).1]
    tauto
  · simp only [ruleLowMaint] at h
    rw [(mem_ite_singleton h).1]
    tauto
  · simp only [ruleMixed] at h
    rw [(mem_ite_singleton h).1]
    tauto
  · simp only [ruleProcedural] at h
    rw [(mem_ite_singleton h).1]
    tauto

theorem mem_detected_of_type_dup {st : AnalyzerState} {cs : ComplexityScores}
    {i : Issue} (h : i ∈ detectedIssues st cs)
    (ht : i.type = "internal_duplication") : i ∈ ruleDuplication st := by
  simp only [detectedIssues, List.mem_append] at h
  rcases h with ((((((((h | h) | h) | h) | h) | h) | h) | h) | h)
  · simp only [ruleLargeFile] at h
    rw [(mem_ite_singleton h).1] at ht
    simp at ht
  · simp only [ruleTooMany] at h
    rw [(mem_ite_singleton h).1] at ht
    simp at ht
  · simp only [ruleComplex] at h
    rw [(mem_ite_singleton h).1] at ht
    simp at ht
  · exact h
  · simp only [ruleOrphans] at h
    rw [(mem_ite_singleton h).1] at ht
    simp at ht
  · simp only [ruleGod] at h
    rw [(mem_ite_singleton h).1] at ht
    simp at ht
  · simp only [ruleLowMaint] at h
    rw [(mem_ite_singleton h).1] at ht
    simp at ht
  · simp only [ruleMixed] at h
    rw [(mem_ite_singleton h).1] at ht
    simp at ht
  · simp only [ruleProcedural] at h
    rw [(mem_ite_singleton h).1] at ht
    simp at ht

theorem mem_detected_of_mem_ruleDuplication {st : AnalyzerState}
    {cs : ComplexityScores} {i : Issue} (h : i ∈ ruleDuplication st) :
    i ∈ detectedIssues st cs := by
  simp only [detectedIssues, List.mem_append]
  tauto

theorem highSimilarity_ne_nil_iff (st : AnalyzerState) :
    highSimilarity st ≠ [] ↔
      ∃ d ∈ st.duplication_map.map (·.2), 17/20 < d.similarity := by
  unfold highSimilarity
  rw [Ne, List.filter_eq_nil_iff]
  push_neg
  simp

/-! ## Cohesion lemmas -/

theorem cohesion_total_eq (l : List (String × RelEntry)) : ∀ init : ℕ,
    l.foldl (fun acc p => acc + p.2.called_by.length + p.2.related_functions.length)
        init =
      init + (l.map (fun p =>
        p.2.called_by.length + p.2.related_functions.length)).sum := by
  induction l with
  | nil => intro init; simp
  | cons p ps ih =>
    intro init
    simp only [List.foldl_cons, List.map_cons, List.sum_cons, ih]
    omega

/-! ## The claim theorems for the issue list and the pipeline -/

/-- C8: for every combination of triggered rules, the returned issue list is
sorted by severity order high, medium, low; ties keep detection order (the
filter at each severity rank equals the filter of the detection-ordered
list); every produced severity is one of high/medium/low (never the reserved
`critical`); and `critical` would sort before `high`. -/
theorem c8_issue_severity_order (st : AnalyzerState) (cs : ComplexityScores) :
    ∃ L, identify_modularity_issues { st with complexity_scores := some cs } =
        .ok L ∧
      L.Pairwise (fun a b => severityOrder a.severity ≤ severityOrder b.severity) ∧
      (∀ n, L.filter (fun i => decide (severityOrder i.severity = n)) =
        (detectedIssues { st with complexity_scores := some cs } cs).filter
          (fun i => decide (severityOrder i.severity = n))) ∧
      (∀ i ∈ L, i.severity = "high" ∨ i.severity = "medium" ∨ i.severity = "low") ∧
      severityOrder "critical" < severityOrder "high" :=
  ⟨sortBySeverity (detectedIssues { st with complexity_scores := some cs } cs),
    rfl, sorted_sortBySeverity _, fun n => filter_sortBySeverity _ n,
    fun _ hi => severity_mem_detected (mem_sortBySeverity.mp hi), by decide⟩

set_option maxRecDepth 40000 in
set_option maxHeartbeats 2000000 in
/-- C2 (amended): an `internal_duplication` issue is produced iff some
recorded DuplicatePair has ratio above 0.85 (pairs are recorded at ratio >
0.70, but the rule's inner filter demands a > 0.85 pair); its severity is
high iff more than 3 pairs exceed 0.85, else medium.  Two methods with
byte-identical sources (the `stReset` file) yield a DuplicatePair with ratio
1.0 and trigger `internal_duplication` with severity medium as the only
high-similarity pair. -/
theorem c2_internal_duplication_rule :
    (∀ (st : AnalyzerState) (cs : ComplexityScores),
      ∃ L, identify_modularity_issues { st with complexity_scores := some cs } =
          .ok L ∧
        (("internal_duplication" ∈ L.map (·.type)) ↔
          ∃ d ∈ st.duplication_map.map (·.2), 17/20 < d.similarity) ∧
        ∀ i ∈ L, i.type = "internal_duplication" →
          (i.severity = "high" ↔
            3 < ((st.duplication_map.map (·.2)).filter
              (fun d => decide (17/20 < d.similarity))).length)) ∧
    stReset.duplication_map.map (fun p => p.2.similarity) = [1] ∧
    (identify_modularity_issues stReset).map
        (·.map (fun i => (i.type, i.severity))) =
      .ok [("internal_duplication", "medium")] := by
  refine ⟨fun st cs => ?_, by with_unfolding_all decide, by with_unfolding_all decide⟩
  have hhs : highSimilarity { st with complexity_scores := some cs } =
      (st.duplication_map.map (·.2)).filter
        (fun d => decide (17/20 < d.similarity)) := rfl
  refine ⟨sortBySeverity
    (detectedIssues { st with complexity_scores := some cs } cs), rfl, ?_, ?_⟩
  · rw [List.mem_map]
    constructor
    · rintro ⟨i, hiL, hit⟩
      have hd := mem_detected_of_type_dup (mem_sortBySeverity.mp hiL) hit
      have hne := (mem_ruleDuplication hd).2.2
      have h2 := highSimilarity_ne_nil_iff { st with complexity_scores := some cs }
      rw [hhs] at h2
      rw [hhs] at hne
      exact h2.mp hne
    · intro hex
      have h2 := highSimilarity_ne_nil_iff { st with complexity_scores := some cs }
      rw [hhs] at h2
      have hne : highSimilarity { st with complexity_scores := some cs } ≠ [] := by
        rw [hhs]
        exact h2.mpr hex
      refine ⟨⟨"internal_duplication",
        if 3 < (highSimilarity { st with complexity_scores := some cs }).length
          then "high" else "medium",
        .internalDuplication
          (({ st with complexity_scores := some cs } :
            AnalyzerState).duplication_map.map (·.2))
          ({ st with complexity_scores := some cs } :
            AnalyzerState).duplication_map.length⟩,
        mem_sortBySeverity.mpr (mem_detected_of_mem_ruleDuplication ?_), rfl⟩
      rw [ruleDuplication_of_high hne]
      exact List.mem_cons_self _ _
  · intro i hiL hit
    have hd := mem_detected_of_type_dup (mem_sortBySeverity.mp hiL) hit
    have heq := (mem_ruleDuplication hd).1
    rw [heq]
    rw [hhs]
    by_cases hc : 3 < ((st.duplication_map.map (·.2)).filter
        (fun d => decide (17/20 < d.similarity))).length
    · simp [hc]
    · simp [hc]

set_option maxRecDepth 40000 in
set_option maxHeartbeats 2000000 in
/-- C2 (counterexample to the claim as stated): the `add`/`mul` file records
a DuplicatePair with ratio 19/27, which lies strictly between 0.70 and 0.85,
yet the analyzer produces NO issues at all — in particular no
`internal_duplication` — although a DuplicatePair with ratio > 0.70 exists. -/
theorem c2_counterexample :
    stAddMul.duplication_map.map (fun p => p.2.similarity) = [mkRat 19 27] ∧
    (7 : ℚ)/10 < mkRat 19 27 ∧ mkRat 19 27 ≤ (17 : ℚ)/20 ∧
    identify_modularity_issues stAddMul = .ok [] := by
  with_unfolding_all decide

/-- C1: the claim's intended behavior fails in the code.  When the source
parses but the radon measurement raises, `_radon_analyze` does catch the
exception (first conjunct: the state passes through unchanged, so the
failure is contained at the Metrics Adapter stage), but `complexity_scores`
is then still the empty dict from `__init__`, so
`_identify_modularity_issues` raises `KeyError('size')` on its first line
and `analyze_file` aborts instead of returning the structural and
duplication issues and their suggestions. -/
theorem c1_radon_failure_keyerror :
    ∀ (m : ModuleInput) (e : String),
      radon_analyze (ast_analyze m) (.error e) = ast_analyze m ∧
      analyze_file (.ok m) (.error e) = .error (.keyError "size") :=
  fun _ _ => ⟨rfl, rfl⟩

/-- C4: a parse failure aborts the whole run: `analyze_file` propagates the
syntax error and returns no metrics, no issues and no suggestions. -/
theorem c4_parse_failure_fatal :
    ∀ (msg : String) (radon : Except String RadonData),
      analyze_file (.error msg) radon = .error (.parseError msg) :=
  fun _ _ => rfl

theorem cohesion_eq_of_ge_two (functions : List FunctionInfo)
    (rels : List (String × RelEntry)) (h : 2 ≤ functions.length) :
    calculate_file_cohesion functions rels =
      min 1 ((((rels.foldl (fun acc p =>
          acc + p.2.called_by.length + p.2.related_functions.length) 0 : ℕ) : ℚ) / 2) /
        (((functions.length * (functions.length - 1) : ℕ) : ℚ) / 2)) := by
  have hn : ¬ functions.length < 2 := by omega
  have hmul : 2 ≤ functions.length * (functions.length - 1) := by
    have h1 : 2 * 1 ≤ functions.length * (functions.length - 1) :=
      Nat.mul_le_mul h (by omega)
    omega
  have hpos : (0 : ℚ) <
      ((functions.length * (functions.length - 1) : ℕ) : ℚ) / 2 := by
    have h2 : (2 : ℚ) ≤ ((functions.length * (functions.length - 1) : ℕ) : ℚ) := by
      exact_mod_cast hmul
    linarith
  simp only [calculate_file_cohesion, if_neg hn, if_neg (ne_of_gt hpos)]

/-- C6: the cohesion score is 1.0 when fewer than two functions exist, lies
in [0,1] for every input, and for ≥ 2 functions equals
min(1, (Σ (len(called_by)+len(related)) / 2) / (n·(n-1)/2)). -/
theorem c6_cohesion_formula :
    ∀ (functions : List FunctionInfo) (rels : List (String × RelEntry)),
      (functions.length < 2 → calculate_file_cohesion functions rels = 1) ∧
      0 ≤ calculate_file_cohesion functions rels ∧
      calculate_file_cohesion functions rels ≤ 1 ∧
      (2 ≤ functions.length →
        calculate_file_cohesion functions rels =
          min 1 ((((rels.map (fun p =>
              ((p.2.called_by.length + p.2.related_functions.length : ℕ) : ℚ))).sum) / 2) /
            (((functions.length * (functions.length - 1) : ℕ) : ℚ) / 2))) := by
  intro functions rels
  have hform : 2 ≤ functions.length →
      calculate_file_cohesion functions rels =
        min 1 ((((rels.map (fun p =>
            ((p.2.called_by.length + p.2.related_functions.length : ℕ) : ℚ))).sum) / 2) /
          (((functions.length * (functions.length - 1) : ℕ) : ℚ) / 2)) := by
    intro h
    rw [cohesion_eq_of_ge_two functions rels h]
    congr 2
    rw [cohesion_total_eq]
    simp only [Nat.zero_add, zero_add]
    rw [Nat.cast_list_sum, List.map_map]
    rfl
  refine ⟨fun h => by simp [calculate_file_cohesion, h], ?_, ?_, hform⟩
  · by_cases h : functions.length < 2
    · simp [calculate_file_cohesion, h]
    · rw [hform (by omega)]
      refine le_min (by norm_num) (div_nonneg (div_nonneg ?_ (by norm_num))
        (div_nonneg (by positivity) (by norm_num)))
      have : ∀ q ∈ rels.map (fun p =>
          ((p.2.called_by.length + p.2.related_functions.length : ℕ) : ℚ)), 0 ≤ q := by
        intro q hq
        obtain ⟨p, _, hp⟩ := List.mem_map.mp hq
        rw [← hp]
        positivity
      exact List.sum_nonneg this
  · by_cases h : functions.length < 2
    · simp [calculate_file_cohesion, h]
    · rw [hform (by omega)]
      exact min_le_left _ _

theorem mem_detected_of_mem_ruleTooMany {st : AnalyzerState}
    {cs : ComplexityScores} {i : Issue} (h : i ∈ ruleTooMany cs) :
    i ∈ detectedIssues st cs := by
  simp only [detectedIssues, List.mem_append]
  tauto

theorem mem_detected_of_mem_ruleMixed {st : AnalyzerState}
    {cs : ComplexityScores} {i : Issue} (h : i ∈ ruleMixed st cs) :
    i ∈ detectedIssues st cs := by
  simp only [detectedIssues, List.mem_append]
  tauto

theorem mem_detected_of_mem_ruleProcedural {st : AnalyzerState}
    {cs : ComplexityScores} {i : Issue} (h : i ∈ ruleProcedural cs) :
    i ∈ detectedIssues st cs := by
  simp only [detectedIssues, List.mem_append]
  tauto

set_option maxRecDepth 20000 in
set_option maxHeartbeats 1000000 in
/-- The scores `_radon_analyze` leaves on the 25-function file. -/
theorem st25_scores : st25.complexity_scores = some scores25 := by
  with_unfolding_all decide

theorem identify_st25 : identify_modularity_issues st25 =
    .ok (sortBySeverity (detectedIssues st25 scores25)) := by
  unfold identify_modularity_issues
  rw [st25_scores]

set_option maxRecDepth 20000 in
set_option maxHeartbeats 1000000 in
/-- Cohesion of the 25-function no-call file is 0. -/
theorem cohesion_st25 :
    calculate_file_cohesion st25.functions st25.function_relationships = 0 := by
  with_unfolding_all decide

theorem ruleMixed_st25 : ruleMixed st25 scores25 =
    [⟨"mixed_responsibilities", "medium", .mixedResponsibilities 0⟩] := by
  simp only [ruleMixed, cohesion_st25]
  rw [if_pos]
  exact ⟨by norm_num, by decide⟩

/-- C3 (counterexample to the claim as stated): `funcs25` is a file of 25
trivial one-line functions with no calls between them and 0 classes, yet the
returned issue list DOES contain `mixed_responsibilities` (rule 8 fires:
cohesion 0 < 0.3 and function count 25 > 10 hold together). -/
theorem c3_counterexample :
    funcs25.length = 25 ∧
    (∀ f ∈ funcs25, f.calls = [] ∧ sourceLineCount f.source = 1) ∧
    (ast_analyze ⟨funcs25, [], []⟩).classes.length = 0 ∧
    ∃ L, identify_modularity_issues st25 = .ok L ∧
      "mixed_responsibilities" ∈ L.map (·.type) := by
  refine ⟨by decide, by decide, by decide,
    sortBySeverity (detectedIssues st25 scores25), identify_st25, ?_⟩
  rw [List.mem_map]
  refine ⟨⟨"mixed_responsibilities", "medium", .mixedResponsibilities 0⟩,
    mem_sortBySeverity.mpr (mem_detected_of_mem_ruleMixed ?_), rfl⟩
  rw [ruleMixed_st25]
  exact List.mem_cons_self _ _

/-- C3 (amended): for the 25-trivial-function file the issue list includes
`too_many_functions` (count 25) and `procedural_style` (count 25), the
cohesion score is 0, and `mixed_responsibilities` DOES fire (cohesion 0 <
0.3 and function count 25 > 10 jointly satisfy rule 8). -/
theorem c3_scenario_amended :
    calculate_file_cohesion st25.functions st25.function_relationships = 0 ∧
    ∃ L, identify_modularity_issues st25 = .ok L ∧
      (⟨"too_many_functions", "medium", .tooManyFunctions 25⟩ : Issue) ∈ L ∧
      (⟨"procedural_style", "low", .proceduralStyle 25⟩ : Issue) ∈ L ∧
      (⟨"mixed_responsibilities", "medium", .mixedResponsibilities 0⟩ : Issue) ∈ L := by
  refine ⟨cohesion_st25,
    sortBySeverity (detectedIssues st25 scores25), identify_st25, ?_, ?_, ?_⟩
  · refine mem_sortBySeverity.mpr (mem_detected_of_mem_ruleTooMany ?_)
    unfold ruleTooMany
    rw [if_pos (by decide : 20 < scores25.function_count)]
    exact List.mem_cons_self _ _
  · refine mem_sortBySeverity.mpr (mem_detected_of_mem_ruleProcedural ?_)
    unfold ruleProcedural
    rw [if_pos (⟨by decide, by decide⟩ :
      scores25.class_count = 0 ∧ 15 < scores25.function_count)]
    exact List.mem_cons_self _ _
  · refine mem_sortBySeverity.mpr (mem_detected_of_mem_ruleMixed ?_)
    rw [ruleMixed_st25]
    exact List.mem_cons_self _ _

/-- C9: `_has_return` is true exactly when a value-carrying `Return` occurs
anywhere among the walked subtree nodes, including inside nested inner
function definitions: on `nestedReturnFun`, whose only value-carrying return
sits in the nested `inner` def (there is none outside nested function
bodies), the flag is still true. -/
theorem c9_has_return_subtree :
    (∀ node : PyNode,
      has_return node = true ↔ ∃ m ∈ walk [node], isValueReturn m = true) ∧
    has_return nestedReturnFun = true ∧
    has_own_value_return nestedReturnFun = false := by
  refine ⟨fun node => by simp [has_return, List.any_eq_true], ?_, ?_⟩
  · simp [has_return, nestedReturnFun, walk.eq_def, PyNode.children, isValueReturn]
  · simp [has_own_value_return, nestedReturnFun, walkOwn.eq_def, PyNode.children,
      isValueReturn]

/-! ## The relationship dict only relates extracted function names -/

theorem relInitPass_entries {functions : List FunctionInfo} :
    ∀ {p : String × RelEntry}, p ∈ relInitPass functions →
      p.2.related_functions = [] := by
  suffices h : ∀ (fs : List FunctionInfo) (d0 : List (String × RelEntry)),
      (∀ p ∈ d0, p.2.related_functions = []) →
      ∀ p ∈ fs.foldl (fun d f => dictSet d f.name ⟨f.calls, [], []⟩) d0,
        p.2.related_functions = [] by
    intro p hm
    exact h functions [] (by simp) p hm
  intro fs
  induction fs with
  | nil => intro d0 h0 p hp; exact h0 p hp
  | cons f fs ih =>
    intro d0 h0 p hp
    refine ih _ ?_ p hp
    intro q hq
    rcases mem_dictSet hq with hq | hq
    · exact h0 q hq
    · rw [hq]

theorem calledByPass_entries {functions : List FunctionInfo}
    {d0 : List (String × RelEntry)}
    (h0 : ∀ p ∈ d0, p.2.related_functions = []) :
    ∀ p ∈ calledByPass functions d0, p.2.related_functions = [] := by
  unfold calledByPass
  suffices hcalls : ∀ (calls : List String) (nm : String)
      (d : List (String × RelEntry)),
      (∀ p ∈ d, p.2.related_functions = []) →
      ∀ p ∈ calls.foldl (fun d call =>
          if (dictGet d call).isSome then
            dictModify d call (fun e => { e with called_by := e.called_by ++ [nm] })
          else d) d,
        p.2.related_functions = [] by
    induction functions generalizing d0 with
    | nil => exact h0
    | cons f fs ih =>
      simp only [List.foldl_cons]
      exact ih (hcalls f.calls f.name d0 h0)
  intro calls
  induction calls with
  | nil => intro nm d hd p hp; exact hd p hp
  | cons c cs ih =>
    intro nm d hd p hp
    simp only [List.foldl_cons] at hp
    refine ih nm _ ?_ p hp
    intro q hq
    split at hq
    · rcases mem_dictModify hq with ⟨y, hy, hq2 | hq2⟩
      · rw [hq2]; exact hd y hy
      · rw [hq2]; exact hd y hy
    · exact hd q hq

theorem relatedInner_subset {N : List String} (f1 : FunctionInfo)
    (hf1 : f1.name ∈ N) :
    ∀ (rest : List FunctionInfo) (d : List (String × RelEntry)),
      (∀ f ∈ rest, f.name ∈ N) →
      (∀ p ∈ d, ∀ x ∈ p.2.related_functions, x ∈ N) →
      ∀ p ∈ relatedInner f1 rest d, ∀ x ∈ p.2.related_functions, x ∈ N := by
  intro rest
  induction rest with
  | nil => intro d _ hd p hp; exact hd p hp
  | cons f2 fs ih =>
    intro d hrest hd p hp
    simp only [relatedInner, List.foldl_cons] at hp
    have hstep : ∀ q ∈ (if 2 ≤ sharedCallCount f1 f2 then
        dictModify
          (dictModify d f1.name (fun e =>
            { e with related_functions := e.related_functions ++ [f2.name] }))
          f2.name (fun e =>
            { e with related_functions := e.related_functions ++ [f1.name] })
        else d), ∀ x ∈ q.2.related_functions, x ∈ N := by
      intro q hq x hx
      split at hq
      · rcases mem_dictModify hq with ⟨y, hy, hq2 | hq2⟩
        · rcases mem_dictModify hy with ⟨z, hz, hy2 | hy2⟩
          · rw [hq2, hy2] at hx
            exact hd z hz x hx
          · rw [hq2, hy2] at hx
            rcases List.mem_append.mp hx with hx | hx
            · exact hd z hz x hx
            · rw [List.mem_singleton.mp hx]
              exact hrest f2 (List.mem_cons_self _ _)
        · rcases mem_dictModify hy with ⟨z, hz, hy2 | hy2⟩
          · rw [hq2] at hx
            simp only at hx
            rcases List.mem_append.mp (hy2 ▸ hx) with hx2 | hx2
            · exact hd z hz x hx2
            · rw [List.mem_singleton.mp hx2]
              exact hf1
          · rw [hq2] at hx
            simp only at hx
            rw [hy2] at hx
            simp only at hx
            rcases List.mem_append.mp hx with hx2 | hx2
            · rcases List.mem_append.mp hx2 with hx3 | hx3
              · exact hd z hz x hx3
              · rw [List.mem_singleton.mp hx3]
                exact hrest f2 (List.mem_cons_self _ _)
            · rw [List.mem_singleton.mp hx2]
              exact hf1
      · exact hd q hq x hx
    exact ih _ (fun f hf => hrest f (List.mem_cons_of_mem _ hf)) hstep p
      (by simpa [relatedInner] using hp)

theorem relatedPass_subset {N : List String} :
    ∀ (fs : List FunctionInfo) (d : List (String × RelEntry)),
      (∀ f ∈ fs, f.name ∈ N) →
      (∀ p ∈ d, ∀ x ∈ p.2.related_functions, x ∈ N) →
      ∀ p ∈ relatedPass fs d, ∀ x ∈ p.2.related_functions, x ∈ N := by
  intro fs
  induction fs with
  | nil => intro d _ hd p hp; exact hd p hp
  | cons f1 rest ih =>
    intro d hf hd p hp
    rw [relatedPass] at hp
    exact ih _ (fun f hfm => hf f (List.mem_cons_of_mem _ hfm))
      (relatedInner_subset f1 (hf f1 (List.mem_cons_self _ _)) rest d
        (fun f hfm => hf f (List.mem_cons_of_mem _ hfm)) hd) p hp

theorem build_related_subset (functions : List FunctionInfo) :
    ∀ p ∈ build_function_relationships functions,
      ∀ x ∈ p.2.related_functions, x ∈ functions.map (·.name) := by
  unfold build_function_relationships
  refine relatedPass_subset functions _ (fun f hf => List.mem_map_of_mem _ hf) ?_
  intro p hp x hx
  rw [calledByPass_entries (fun q hq => relInitPass_entries hq) p hp] at hx
  simp at hx

theorem relatedOfName_subset (functions : List FunctionInfo) (n : String) :
    ∀ x ∈ relatedOfName (build_function_relationships functions) n,
      x ∈ functions.map (·.name) := by
  intro x hx
  unfold relatedOfName at hx
  cases hd : dictGet (build_function_relationships functions) n with
  | none => rw [hd] at hx; simp at hx
  | some e =>
    rw [hd] at hx
    simp only [Option.map, Option.getD] at hx
    exact build_related_subset functions (n, e) (dictGet_mem hd) x hx

/-! ## Clustering: the main pass assigns every function name exactly once -/

theorem addRelated_spec (rs : List String) : ∀ (assigned cluster : List String),
    ∃ d : List String,
      (addRelated assigned cluster rs).1 = cluster ++ d ∧
      (addRelated assigned cluster rs).2 = assigned ++ d ∧
      (∀ x ∈ d, x ∈ rs) ∧
      (assigned.Nodup → (assigned ++ d).Nodup) := by
  induction rs with
  | nil =>
    intro a c
    exact ⟨[], by simp [addRelated], by simp [addRelated], by simp,
      fun h => by simpa⟩
  | cons r rs ih =>
    intro a c
    by_cases hr : r ∈ a
    · obtain ⟨d, h1, h2, h3, h4⟩ := ih a c
      refine ⟨d, ?_, ?_, fun x hx => List.mem_cons_of_mem _ (h3 x hx), h4⟩
      · rw [addRelated, if_pos hr]; exact h1
      · rw [addRelated, if_pos hr]; exact h2
    · obtain ⟨d, h1, h2, h3, h4⟩ := ih (a ++ [r]) (c ++ [r])
      refine ⟨r :: d, ?_, ?_, ?_, ?_⟩
      · rw [addRelated, if_neg hr, h1]
        simp
      · rw [addRelated, if_neg hr, h2]
        simp
      · intro x hx
        rcases List.mem_cons.mp hx with hx | hx
        · rw [hx]; exact List.mem_cons_self _ _
        · exact List.mem_cons_of_mem _ (h3 x hx)
      · intro hnd
        have h5 : (a ++ [r]).Nodup := by
          rw [List.nodup_append]
          exact ⟨hnd, List.nodup_singleton r, by simpa [List.disjoint_singleton]⟩
        have h6 := h4 h5
        rwa [List.append_assoc, List.singleton_append] at h6

theorem clusterStep_inv {rels : List (String × RelEntry)} {N : List String}
    (hrels : ∀ n, ∀ x ∈ relatedOfName rels n, x ∈ N)
    {st : List (List String) × List String}
    (hflat : st.2 = st.1.flatten) (hnd : st.2.Nodup)
    (hsub : ∀ x ∈ st.2, x ∈ N)
    (f : FunctionInfo) (hf : f.name ∈ N) :
    ((clusterStep rels st f).2 = (clusterStep rels st f).1.flatten ∧
      (clusterStep rels st f).2.Nodup ∧
      (∀ x ∈ (clusterStep rels st f).2, x ∈ N)) ∧
    (∀ x ∈ st.2, x ∈ (clusterStep rels st f).2) ∧
    f.name ∈ (clusterStep rels st f).2 := by
  by_cases hmem : f.name ∈ st.2
  · rw [clusterStep, if_pos hmem]
    exact ⟨⟨hflat, hnd, hsub⟩, fun x hx => hx, hmem⟩
  · obtain ⟨d, h1, h2, h3, h4⟩ :=
      addRelated_spec (relatedOfName rels f.name) (st.2 ++ [f.name]) [f.name]
    have hcl_ne : (addRelated (st.2 ++ [f.name]) [f.name]
        (relatedOfName rels f.name)).1 ≠ [] := by
      rw [h1]; simp
    rw [clusterStep, if_neg hmem]
    simp only [if_pos hcl_ne]
    have hndr : (st.2 ++ [f.name]).Nodup := by
      rw [List.nodup_append]
      exact ⟨hnd, List.nodup_singleton _, by simpa [List.disjoint_singleton]⟩
    refine ⟨⟨?_, ?_, ?_⟩, ?_, ?_⟩
    · rw [h2, h1, List.flatten_append, ← hflat]
      simp [List.append_assoc]
    · rw [h2]
      exact h4 hndr
    · intro x hx
      rw [h2] at hx
      rcases List.mem_append.mp hx with hx | hx
      · rcases List.mem_append.mp hx with hx | hx
        · exact hsub x hx
        · rw [List.mem_singleton.mp hx]; exact hf
      · exact hrels f.name x (h3 x hx)
    · intro x hx
      rw [h2]
      exact List.mem_append.mpr (.inl (List.mem_append.mpr (.inl hx)))
    · rw [h2]
      exact List.mem_append.mpr (.inl (List.mem_append.mpr (.inr (by simp))))

theorem clusterFold_inv {rels : List (String × RelEntry)} {N : List String}
    (hrels : ∀ n, ∀ x ∈ relatedOfName rels n, x ∈ N) :
    ∀ (fs : List FunctionInfo), (∀ f ∈ fs, f.name ∈ N) →
    ∀ (st0 : List (List String) × List String),
      st0.2 = st0.1.flatten → st0.2.Nodup → (∀ x ∈ st0.2, x ∈ N) →
      ((fs.foldl (clusterStep rels) st0).2 =
          (fs.foldl (clusterStep rels) st0).1.flatten ∧
        (fs.foldl (clusterStep rels) st0).2.Nodup ∧
        (∀ x ∈ (fs.foldl (clusterStep rels) st0).2, x ∈ N)) ∧
      (∀ x ∈ st0.2, x ∈ (fs.foldl (clusterStep rels) st0).2) ∧
      (∀ f ∈ fs, f.name ∈ (fs.foldl (clusterStep rels) st0).2) := by
  intro fs
  induction fs with
  | nil =>
    intro _ st0 hflat hnd hsub
    exact ⟨⟨hflat, hnd, hsub⟩, fun x hx => hx, by simp⟩
  | cons f fs ih =>
    intro hN st0 hflat hnd hsub
    simp only [List.foldl_cons]
    obtain ⟨⟨hflat1, hnd1, hsub1⟩, hmono1, hfst1⟩ :=
      clusterStep_inv hrels hflat hnd hsub f (hN f (List.mem_cons_self _ _))
    obtain ⟨hinv2, hmono2, hall2⟩ :=
      ih (fun g hg => hN g (List.mem_cons_of_mem _ hg)) _ hflat1 hnd1 hsub1
    refine ⟨hinv2, fun x hx => hmono2 x (hmono1 x hx), ?_⟩
    intro g hg
    rcases List.mem_cons.mp hg with hg | hg
    · rw [hg]; exact hmono2 _ hfst1
    · exact hall2 g hg

theorem clusterMainPass_complete (functions : List FunctionInfo) :
    (∀ f ∈ functions,
      f.name ∈ (clusterMainPass functions
        (build_function_relationships functions)).2) ∧
    clusterUnassigned functions
      (clusterMainPass functions (build_function_relationships functions)).2 = [] ∧
    cluster_functions functions (build_function_relationships functions) =
      (clusterMainPass functions (build_function_relationships functions)).1 := by
  have hfold := @clusterFold_inv (build_function_relationships functions)
    (functions.map (·.name))
    (relatedOfName_subset functions) functions
    (fun f hf => List.mem_map_of_mem _ hf)
    ([], []) rfl List.nodup_nil (by simp)
  have hassigned : ∀ f ∈ functions,
      f.name ∈ (clusterMainPass functions
        (build_function_relationships functions)).2 := hfold.2.2
  have hunassigned : clusterUnassigned functions
      (clusterMainPass functions (build_function_relationships functions)).2 = [] := by
    unfold clusterUnassigned
    rw [List.filter_eq_nil_iff]
    intro n hn
    obtain ⟨f, hf, hfn⟩ := List.mem_map.mp hn
    simp only [decide_eq_true_eq, Decidable.not_not]
    rw [← hfn]
    exact hassigned f hf
  refine ⟨hassigned, hunassigned, ?_⟩
  simp only [cluster_functions, hunassigned]
  simp

/-- C10: after the main clustering pass, every extracted function name is
already assigned, so the leftover step never fires and `_cluster_functions`
returns exactly the main pass's clusters. -/
theorem c10_leftover_dead_code (functions : List FunctionInfo) :
    (∀ f ∈ functions,
      f.name ∈ (clusterMainPass functions
        (build_function_relationships functions)).2) ∧
    clusterUnassigned functions
      (clusterMainPass functions (build_function_relationships functions)).2 = [] ∧
    cluster_functions functions (build_function_relationships functions) =
      (clusterMainPass functions (build_function_relationships functions)).1 :=
  clusterMainPass_complete functions

/-- C5: clustering produces a partition of the function-name set: the
flattened cluster list repeats no name, and a name occurs in it iff it is an
extracted function name. -/
theorem c5_cluster_partition (functions : List FunctionInfo) :
    (cluster_functions functions
      (build_function_relationships functions)).flatten.Nodup ∧
    ∀ x, x ∈ (cluster_functions functions
        (build_function_relationships functions)).flatten ↔
      x ∈ functions.map (·.name) := by
  have hfold := @clusterFold_inv (build_function_relationships functions)
    (functions.map (·.name))
    (relatedOfName_subset functions) functions
    (fun f hf => List.mem_map_of_mem _ hf)
    ([], []) rfl List.nodup_nil (by simp)
  obtain ⟨⟨hflat, hnd, hsub⟩, _, hall⟩ := hfold
  have hmc := clusterMainPass_complete functions
  rw [hmc.2.2]
  have hmain : clusterMainPass functions (build_function_relationships functions) =
      functions.foldl (clusterStep (build_function_relationships functions))
        ([], []) := rfl
  rw [← hmain] at hflat hnd hsub hall
  constructor
  · rw [← hflat]; exact hnd
  · intro x
    rw [← hflat]
    constructor
    · exact hsub x
    · intro hx
      obtain ⟨f, hf, hfn⟩ := List.mem_map.mp hx
      rw [← hfn]
      exact hall f hf

/-! ## The `related` relation under distinct function names (C7) -/

theorem isSome_dictModify {K V : Type} [DecidableEq K]
    (d : List (K × V)) (k : K) (f : V → V) (n : K) :
    (dictGet (dictModify d k f) n).isSome = (dictGet d n).isSome := by
  rw [dictGet_dictModify]
  by_cases hn : n = k
  · rw [if_pos hn, hn]
    cases dictGet d k <;> rfl
  · rw [if_neg hn]

theorem relInit_aux_get (fs : List FunctionInfo) :
    ∀ (d0 : List (String × RelEntry)) (n : String),
      dictGet (fs.foldl (fun d f => dictSet d f.name ⟨f.calls, [], []⟩) d0) n =
        match fs.reverse.find? (fun f => decide (f.name = n)) with
        | some f => some ⟨f.calls, [], []⟩
        | none => dictGet d0 n := by
  induction fs with
  | nil => intro d0 n; simp
  | cons f fs ih =>
    intro d0 n
    simp only [List.foldl_cons, ih, List.reverse_cons, List.find?_append]
    cases hfind : fs.reverse.find? (fun f => decide (f.name = n)) with
    | some g => simp [hfind]
    | none =>
      simp only [hfind, Option.none_orElse]
      rw [dictGet_dictSet]
      by_cases hn : f.name = n
      · simp [List.find?, hn]
      · have : ¬ (n = f.name) := fun h => hn h.symm
        simp [List.find?, hn, this]

theorem relInit_get_of_nodup {functions : List FunctionInfo}
    (hnd : (functions.map (·.name)).Nodup)
    {f : FunctionInfo} (hf : f ∈ functions) :
    dictGet (relInitPass functions) f.name = some ⟨f.calls, [], []⟩ := by
  unfold relInitPass
  rw [relInit_aux_get]
  cases hfind : functions.reverse.find? (fun g => decide (g.name = f.name)) with
  | none =>
    exfalso
    have := List.find?_eq_none.mp hfind f (List.mem_reverse.mpr hf)
    simp at this
  | some g =>
    have hgf : g.name = f.name := by
      have := List.find?_some hfind
      simpa using this
    have hg : g ∈ functions := List.mem_reverse.mp (List.mem_of_find?_eq_some hfind)
    have : g = f := List.inj_on_of_nodup_map hnd hg hf hgf
    rw [this]

theorem relatedOfName_calledByStep (calls : List String) (nm : String) :
    ∀ (d : List (String × RelEntry)) (n : String),
      relatedOfName (calls.foldl (fun d call =>
        if (dictGet d call).isSome then
          dictModify d call (fun e => { e with called_by := e.called_by ++ [nm] })
        else d) d) n = relatedOfName d n := by
  induction calls with
  | nil => intro d n; rfl
  | cons c cs ih =>
    intro d n
    simp only [List.foldl_cons, ih]
    split
    · unfold relatedOfName
      rw [dictGet_dictModify]
      by_cases hn : n = c
      · rw [if_pos hn, hn]
        cases dictGet d c <;> rfl
      · rw [if_neg hn]
    · rfl

theorem isSome_calledByStep (calls : List String) (nm : String) :
    ∀ (d : List (String × RelEntry)) (n : String),
      (dictGet (calls.foldl (fun d call =>
        if (dictGet d call).isSome then
          dictModify d call (fun e => { e with called_by := e.called_by ++ [nm] })
        else d) d) n).isSome = (dictGet d n).isSome := by
  induction calls with
  | nil => intro d n; rfl
  | cons c cs ih =>
    intro d n
    simp only [List.foldl_cons, ih]
    split
    · rw [isSome_dictModify]
    · rfl

theorem relatedOfName_calledByPass (fs : List FunctionInfo) :
    ∀ (d : List (String × RelEntry)) (n : String),
      relatedOfName (calledByPass fs d) n = relatedOfName d n := by
  induction fs with
  | nil => intro d n; rfl
  | cons f fs ih =>
    intro d n
    unfold calledByPass at ih ⊢
    simp only [List.foldl_cons, ih, relatedOfName_calledByStep]

theorem isSome_calledByPass (fs : List FunctionInfo) :
    ∀ (d : List (String × RelEntry)) (n : String),
      (dictGet (calledByPass fs d) n).isSome = (dictGet d n).isSome := by
  induction fs with
  | nil => intro d n; rfl
  | cons f fs ih =>
    intro d n
    unfold calledByPass at ih ⊢
    simp only [List.foldl_cons, ih, isSome_calledByStep]

theorem relatedOfName_appendPair {d : List (String × RelEntry)}
    {k1 k2 : String} (hk : k1 ≠ k2)
    (h1 : (dictGet d k1).isSome = true) (h2 : (dictGet d k2).isSome = true)
    (v1 v2 n m : String) :
    (m ∈ relatedOfName
      (dictModify
        (dictModify d k1 (fun e =>
          { e with related_functions := e.related_functions ++ [v1] }))
        k2 (fun e =>
          { e with related_functions := e.related_functions ++ [v2] })) n ↔
    (m ∈ relatedOfName d n ∨ (n = k1 ∧ m = v1) ∨ (n = k2 ∧ m = v2))) := by
  simp only [relatedOfName, dictGet_dictModify]
  by_cases hn2 : n = k2
  · have hn1 : ¬ (n = k1) := fun h => hk (h ▸ hn2)
    have hk21 : ¬ (k2 = k1) := fun h => hk h.symm
    cases hd2 : dictGet d k2 with
    | none => rw [hd2] at h2; simp at h2
    | some e =>
      simp [hn2, hn1, hk21, hd2]
  · by_cases hn1 : n = k1
    · cases hd1 : dictGet d k1 with
      | none => rw [hd1] at h1; simp at h1
      | some e =>
        simp [hn1, hn2, hd1, hk, Ne.symm hk]
    · simp [hn1, hn2]

theorem isSome_relatedInner (f1 : FunctionInfo) :
    ∀ (rest : List FunctionInfo) (d : List (String × RelEntry)) (n : String),
      (dictGet (relatedInner f1 rest d) n).isSome = (dictGet d n).isSome := by
  intro rest
  induction rest with
  | nil => intro d n; rfl
  | cons f2 fs ih =>
    intro d n
    unfold relatedInner at ih ⊢
    simp only [List.foldl_cons, ih]
    split
    · rw [isSome_dictModify, isSome_dictModify]
    · rfl

theorem relatedInner_mem (f1 : FunctionInfo) :
    ∀ (rest : List FunctionInfo) (d : List (String × RelEntry)) (n m : String),
      (dictGet d f1.name).isSome = true →
      (∀ g ∈ rest, (dictGet d g.name).isSome = true) →
      f1.name ∉ rest.map (·.name) →
      (m ∈ relatedOfName (relatedInner f1 rest d) n ↔
        m ∈ relatedOfName d n ∨
        ∃ f2 ∈ rest, 2 ≤ sharedCallCount f1 f2 ∧
          ((n = f1.name ∧ m = f2.name) ∨ (n = f2.name ∧ m = f1.name))) := by
  intro rest
  induction rest with
  | nil =>
    intro d n m _ _ _
    simp [relatedInner]
  | cons f2 fs ih =>
    intro d n m h1 hrest hnot
    have hne : f1.name ≠ f2.name := by
      intro h
      exact hnot (h ▸ List.mem_map_of_mem _ (List.mem_cons_self _ _))
    have h2 : (dictGet d f2.name).isSome = true :=
      hrest f2 (List.mem_cons_self _ _)
    unfold relatedInner at ih ⊢
    simp only [List.foldl_cons]
    by_cases hq : 2 ≤ sharedCallCount f1 f2
    · rw [if_pos hq]
      set d1 := dictModify
        (dictModify d f1.name (fun e =>
          { e with related_functions := e.related_functions ++ [f2.name] }))
        f2.name (fun e =>
          { e with related_functions := e.related_functions ++ [f1.name] }) with hd1
      have hkeys1 : (dictGet d1 f1.name).isSome = true := by
        rw [hd1, isSome_dictModify, isSome_dictModify]
        exact h1
      have hkeysr : ∀ g ∈ fs, (dictGet d1 g.name).isSome = true := by
        intro g hg
        rw [hd1, isSome_dictModify, isSome_dictModify]
        exact hrest g (List.mem_cons_of_mem _ hg)
      have hnot1 : f1.name ∉ fs.map (·.name) := by
        intro h
        exact hnot (List.mem_cons_of_mem _ h)
      rw [ih d1 n m hkeys1 hkeysr hnot1, hd1,
        relatedOfName_appendPair hne h1 h2 f2.name f1.name n m]
      constructor
      · rintro ((hm | hp | hp) | ⟨g, hg, hsh, hpat⟩)
        · exact .inl hm
        · exact .inr ⟨f2, List.mem_cons_self _ _, hq, .inl hp⟩
        · exact .inr ⟨f2, List.mem_cons_self _ _, hq, .inr hp⟩
        · exact .inr ⟨g, List.mem_cons_of_mem _ hg, hsh, hpat⟩
      · rintro (hm | ⟨g, hg, hsh, hpat⟩)
        · exact .inl (.inl hm)
        · rcases List.mem_cons.mp hg with hg2 | hg2
          · subst hg2
            rcases hpat with hp | hp
            · exact .inl (.inr (.inl hp))
            · exact .inl (.inr (.inr hp))
          · exact .inr ⟨g, hg2, hsh, hpat⟩
    · rw [if_neg hq]
      have hnot1 : f1.name ∉ fs.map (·.name) := by
        intro h
        exact hnot (List.mem_cons_of_mem _ h)
      rw [ih d n m h1 (fun g hg => hrest g (List.mem_cons_of_mem _ hg)) hnot1]
      constructor
      · rintro (hm | ⟨g, hg, hsh, hpat⟩)
        · exact .inl hm
        · exact .inr ⟨g, List.mem_cons_of_mem _ hg, hsh, hpat⟩
      · rintro (hm | ⟨g, hg, hsh, hpat⟩)
        · exact .inl hm
        · rcases List.mem_cons.mp hg with hg2 | hg2
          · subst hg2
            exact absurd hsh hq
          · exact .inr ⟨g, hg2, hsh, hpat⟩

theorem relatedPass_mem :
    ∀ (fs : List FunctionInfo) (d : List (String × RelEntry)) (n m : String),
      (∀ g ∈ fs, (dictGet d g.name).isSome = true) →
      (fs.map (·.name)).Nodup →
      (m ∈ relatedOfName (relatedPass fs d) n ↔
        m ∈ relatedOfName d n ∨
        ∃ p ∈ ltPairs fs, 2 ≤ sharedCallCount p.1 p.2 ∧
          ((n = p.1.name ∧ m = p.2.name) ∨ (n = p.2.name ∧ m = p.1.name))) := by
  intro fs
  induction fs with
  | nil =>
    intro d n m _ _
    simp [relatedPass, ltPairs]
  | cons f1 rest ih =>
    intro d n m hkeys hnd
    rw [List.map_cons, List.nodup_cons] at hnd
    rw [relatedPass]
    have hkeys1 : ∀ g ∈ rest, (dictGet (relatedInner f1 rest d) g.name).isSome = true := by
      intro g hg
      rw [isSome_relatedInner]
      exact hkeys g (List.mem_cons_of_mem _ hg)
    rw [ih (relatedInner f1 rest d) n m hkeys1 hnd.2,
      relatedInner_mem f1 rest d n m (hkeys f1 (List.mem_cons_self _ _))
        (fun g hg => hkeys g (List.mem_cons_of_mem _ hg)) hnd.1]
    simp only [ltPairs, List.mem_append, List.mem_map]
    constructor
    · rintro ((hm | ⟨f2, hf2, hsh, hpat⟩) | ⟨p, hp, hsh, hpat⟩)
      · exact .inl hm
      · exact .inr ⟨(f1, f2), .inl ⟨f2, hf2, rfl⟩, hsh, hpat⟩
      · exact .inr ⟨p, .inr hp, hsh, hpat⟩
    · rintro (hm | ⟨p, hp | hp, hsh, hpat⟩)
      · exact .inl (.inl hm)
      · obtain ⟨f2, hf2, hpeq⟩ := hp
        rw [← hpeq] at hsh hpat
        exact .inl (.inr ⟨f2, hf2, hsh, hpat⟩)
      · exact .inr ⟨p, hp, hsh, hpat⟩

theorem relatedOfName_base (functions : List FunctionInfo) (n : String) :
    relatedOfName (calledByPass functions (relInitPass functions)) n = [] := by
  rw [relatedOfName_calledByPass]
  unfold relatedOfName
  cases hd : dictGet (relInitPass functions) n with
  | none => rfl
  | some e =>
    simp only [Option.map, Option.getD]
    exact relInitPass_entries (dictGet_mem hd)

theorem ltPairs_mem {α : Type} {p : α × α} :
    ∀ {l : List α}, p ∈ ltPairs l → p.1 ∈ l ∧ p.2 ∈ l := by
  intro l
  induction l with
  | nil => intro h; simp [ltPairs] at h
  | cons x xs ih =>
    intro h
    rcases List.mem_append.mp h with h | h
    · obtain ⟨y, hy, hpy⟩ := List.mem_map.mp h
      rw [← hpy]
      exact ⟨List.mem_cons_self _ _, List.mem_cons_of_mem _ hy⟩
    · obtain ⟨h1, h2⟩ := ih h
      exact ⟨List.mem_cons_of_mem _ h1, List.mem_cons_of_mem _ h2⟩

theorem ltPairs_of_mem {α : Type} {x y : α} :
    ∀ {l : List α}, x ∈ l → y ∈ l → x ≠ y →
      (x, y) ∈ ltPairs l ∨ (y, x) ∈ ltPairs l := by
  intro l
  induction l with
  | nil => intro hx; simp at hx
  | cons z zs ih =>
    intro hx hy hne
    rcases List.mem_cons.mp hx with hx1 | hx1
    · rcases List.mem_cons.mp hy with hy1 | hy1
      · exact absurd (hx1.trans hy1.symm) hne
      · left
        rw [ltPairs, List.mem_append, ← hx1]
        exact .inl (List.mem_map_of_mem _ hy1)
    · rcases List.mem_cons.mp hy with hy1 | hy1
      · right
        rw [ltPairs, List.mem_append, ← hy1]
        exact .inl (List.mem_map_of_mem _ hx1)
      · rcases ih hx1 hy1 hne with h | h
        · exact .inl (by rw [ltPairs, List.mem_append]; exact .inr h)
        · exact .inr (by rw [ltPairs, List.mem_append]; exact .inr h)

theorem sharedCallCount_eq_card_inter (f g : FunctionInfo) :
    sharedCallCount f g = (f.calls.toFinset ∩ g.calls.toFinset).card := by
  unfold sharedCallCount
  have hts : (f.calls.filter (fun c => decide (c ∈ g.calls))).toFinset =
      f.calls.toFinset ∩ g.calls.toFinset := by
    ext x
    simp [List.mem_filter]
  rw [← hts, List.card_toFinset]

theorem build_related_char (functions : List FunctionInfo)
    (hnd : (functions.map (·.name)).Nodup) (n m : String) :
    m ∈ relatedOfName (build_function_relationships functions) n ↔
      ∃ p ∈ ltPairs functions, 2 ≤ sharedCallCount p.1 p.2 ∧
        ((n = p.1.name ∧ m = p.2.name) ∨ (n = p.2.name ∧ m = p.1.name)) := by
  unfold build_function_relationships
  rw [relatedPass_mem functions _ n m ?keys hnd, relatedOfName_base]
  · simp
  case keys =>
    intro g hg
    rw [isSome_calledByPass, relInit_get_of_nodup hnd hg]
    rfl

/-- C7 (amended): when the extracted function names are pairwise distinct,
the `related` relation is symmetric and holds exactly when the two functions
share at least two distinct call targets. -/
theorem c7_related_symmetric (functions : List FunctionInfo)
    (hnd : (functions.map (·.name)).Nodup) :
    ∀ f ∈ functions, ∀ g ∈ functions, f ≠ g →
      ((g.name ∈ relatedOfName (build_function_relationships functions) f.name ↔
        f.name ∈ relatedOfName (build_function_relationships functions) g.name) ∧
       (g.name ∈ relatedOfName (build_function_relationships functions) f.name ↔
        2 ≤ (f.calls.toFinset ∩ g.calls.toFinset).card)) := by
  intro f hf g hg hfg
  have hinj := List.inj_on_of_nodup_map hnd
  have hname : f.name ≠ g.name := fun h => hfg (hinj hf hg h)
  have key : ∀ (a b : FunctionInfo), a ∈ functions → b ∈ functions →
      a.name ≠ b.name →
      (b.name ∈ relatedOfName (build_function_relationships functions) a.name ↔
        2 ≤ (a.calls.toFinset ∩ b.calls.toFinset).card) := by
    intro a b ha hb hab
    rw [build_related_char functions hnd a.name b.name]
    constructor
    · rintro ⟨p, hp, hsh, hpat⟩
      obtain ⟨hp1, hp2⟩ := ltPairs_mem hp
      rcases hpat with ⟨he1, he2⟩ | ⟨he1, he2⟩
      · have ha1 : p.1 = a := hinj hp1 ha he1.symm
        have hb1 : p.2 = b := hinj hp2 hb he2.symm
        rw [ha1, hb1] at hsh
        rwa [sharedCallCount_eq_card_inter] at hsh
      · have ha1 : p.2 = a := hinj hp2 ha he1.symm
        have hb1 : p.1 = b := hinj hp1 hb he2.symm
        rw [ha1, hb1] at hsh
        rw [sharedCallCount_eq_card_inter] at hsh
        rwa [Finset.inter_comm] at hsh
    · intro hcard
      have hab2 : a ≠ b := fun h => hab (h ▸ rfl)
      rcases ltPairs_of_mem ha hb hab2 with hp | hp
      · exact ⟨(a, b), hp, by rwa [sharedCallCount_eq_card_inter], .inl ⟨rfl, rfl⟩⟩
      · refine ⟨(b, a), hp, ?_, .inr ⟨rfl, rfl⟩⟩
        rw [sharedCallCount_eq_card_inter, Finset.inter_comm]
        exact hcard
  refine ⟨?_, key f g hf hg hname⟩
  rw [key f g hf hg hname, key g f hg hf (fun h => hname h.symm),
    Finset.inter_comm]

/-- Witness for C7's amended theorem: in the two-function file `[fP, fQ]`
(distinct names, two shared call targets) the theorem's conclusion holds at
`f := fP`, `g := fQ`. -/
theorem c7_related_symmetric_witness :
    (fQ.name ∈ relatedOfName (build_function_relationships [fP, fQ]) fP.name ↔
      fP.name ∈ relatedOfName (build_function_relationships [fP, fQ]) fQ.name) ∧
    (fQ.name ∈ relatedOfName (build_function_relationships [fP, fQ]) fP.name ↔
      2 ≤ (fP.calls.toFinset ∩ fQ.calls.toFinset).card) :=
  c7_related_symmetric [fP, fQ] (by decide) fP (by decide) fQ (by decide)
    (by decide)

/-- C7 (counterexample to the claim as stated): in a parsed file with two
distinct top-level functions both named `f` (plus `g`), `g`'s name appears in
the related list keyed by the second `f`'s name although the second `f`
shares no call target with `g` — the membership ↔ shared-calls equivalence
fails for the function pair (fDup2, fG). -/
theorem c7_counterexample :
    fDup2 ∈ funcsDupName ∧ fG ∈ funcsDupName ∧ fDup2 ≠ fG ∧
    fG.name ∈ relatedOfName (build_function_relationships funcsDupName)
      fDup2.name ∧
    (fDup2.calls.toFinset ∩ fG.calls.toFinset).card = 0 := by
  with_unfolding_all decide

end Analyzer
